import Mathlib

set_option autoImplicit false

/-!
# Receipt processor: scoring engine, validator and result store

A shallow embedding of `utils.go` (`CalculatePoints`) and `handlers.go`
(`validateReceipt`, `ProcessReceiptHandler`, `GetPointsHandler`).

Conventions of the embedding:

* Go strings are modelled by `String` (valid UTF-8, which is what the JSON
  decoder produces); `len` is the UTF-8 byte length, `range` iterates over the
  code points.
* Go `int` is the 64-bit signed integer: every `+=` is followed by `wrap64`.
* `float64` is modelled exactly (sign, integer significand, binary exponent) with
  round-to-nearest-even; library functions (`strconv.ParseFloat`, `math.Mod`,
  `math.Ceil`, `time.Parse`, `strings.TrimSpace`, `unicode.IsLetter`, ...) follow
  the Go standard library.
* What the Go specification or the Go release leaves open (the Unicode tables above
  Latin-1, the result of an out-of-range float to int conversion) is a parameter,
  `GoImpl`.
-/

namespace ReceiptProcessor

/-! ## Machine integers -/

/-- Two's complement reduction of an integer to the range of Go's 64-bit `int`. -/
def wrap64 (z : Int) : Int := (z + 2 ^ 63) % 2 ^ 64 - 2 ^ 63

/-! ## float64 -/

/-- A `float64` value: NaN, an infinity, or the finite value `(-1)^neg * m * 2^q` in
IEEE-754 canonical form (`m < 2^53`, `-1074 ≤ q ≤ 971`, and `2^52 ≤ m` unless
`q = -1074`). Zero is `fin neg 0 (-1074)`. -/
inductive Float64 where
  | nan : Float64
  | inf (neg : Bool) : Float64
  | fin (neg : Bool) (m : Nat) (q : Int) : Float64
  deriving DecidableEq, Repr

namespace Float64

/-- Nearest natural number to `num / den`, ties to even. -/
def roundHalfEven (num den : Nat) : Nat :=
  if den < 2 * (num % den) ∨ (2 * (num % den) = den ∧ (num / den) % 2 = 1) then num / den + 1
  else num / den

/-- The fraction `num / (den * 2^q)` as a pair of naturals. -/
def scale2 (num den : Nat) (q : Int) : Nat × Nat :=
  if 0 ≤ q then (num, den * 2 ^ q.toNat) else (num * 2 ^ (-q).toNat, den)

/-- Binary logarithm by repeated halving; the first argument bounds the number of steps. -/
def log2Aux : Nat → Nat → Nat
  | 0, _ => 0
  | fuel + 1, n => if n < 2 then 0 else log2Aux fuel (n / 2) + 1

/-- Floor of the binary logarithm (`0` at `0`). -/
def log2 (n : Nat) : Nat := log2Aux n n

/-- Exponent of the unit in the last place used to represent `num / den`. -/
def ulpExp (num den : Nat) : Int :=
  let q0 : Int := max ((log2 num : Int) - (log2 den : Int) - 52) (-1074)
  if (scale2 num den q0).1 / (scale2 num den q0).2 < 2 ^ 52 ∧ -1074 < q0 then q0 - 1 else q0

/-- Round the non-negative rational `num / den` (with `den ≠ 0`) to the nearest `float64`,
ties to even, and give it the sign `neg`. The flag reports overflow to infinity. -/
def round (neg : Bool) (num den : Nat) : Float64 × Bool :=
  if num = 0 then (fin neg 0 (-1074), false)
  else
    let q := ulpExp num den
    let m := roundHalfEven (scale2 num den q).1 (scale2 num den q).2
    let mq : Nat × Int := if m = 2 ^ 53 then (2 ^ 52, q + 1) else (m, q)
    if 971 < mq.2 then (inf neg, true) else (fin neg mq.1 mq.2, false)

/-- Round `m * 2^q` to the nearest `float64`. -/
def roundDyadic (neg : Bool) (m : Nat) (q : Int) : Float64 × Bool :=
  if 0 ≤ q then round neg (m * 2 ^ q.toNat) 1 else round neg m (2 ^ (-q).toNat)

/-- The `float64` nearest to the non-negative constant `num / den`. -/
def ofRat (num den : Nat) : Float64 := (round false num den).1

/-- IEEE-754 multiplication, `x * y`. -/
def mul : Float64 → Float64 → Float64
  | nan, _ => nan
  | _, nan => nan
  | inf a, inf b => inf (a != b)
  | inf a, fin b m _ => if m = 0 then nan else inf (a != b)
  | fin a m _, inf b => if m = 0 then nan else inf (a != b)
  | fin a m1 q1, fin b m2 q2 => (roundDyadic (a != b) (m1 * m2) (q1 + q2)).1

/-- Go's `math.Mod(x, y)`: the floating-point remainder of `x / y`, with the sign of `x`;
NaN when `y` is zero, `x` is infinite or either is NaN; `x` when `y` is infinite. -/
def mod : Float64 → Float64 → Float64
  | nan, _ => nan
  | _, nan => nan
  | inf _, _ => nan
  | fin a m q, inf _ => fin a m q
  | fin a m1 q1, fin _ m2 q2 =>
    if m2 = 0 then nan
    else
      (roundDyadic a ((m1 * 2 ^ (q1 - min q1 q2).toNat) % (m2 * 2 ^ (q2 - min q1 q2).toNat))
        (min q1 q2)).1

/-- Go's `math.Ceil(x)`: least integer value greater than or equal to `x`;
`Ceil(±0) = ±0`, `Ceil(±Inf) = ±Inf`, `Ceil(NaN) = NaN`. -/
def ceil : Float64 → Float64
  | nan => nan
  | inf a => inf a
  | fin a m q =>
    if 0 ≤ q then fin a m q
    else if a then (round a (m / 2 ^ (-q).toNat) 1).1
    else (round a ((m + 2 ^ (-q).toNat - 1) / 2 ^ (-q).toNat) 1).1

/-- The signed integer numerator of a finite value over the common exponent `e`. -/
def numer (neg : Bool) (m : Nat) (q e : Int) : Int :=
  if neg then -((m * 2 ^ (q - e).toNat : Nat) : Int) else ((m * 2 ^ (q - e).toNat : Nat) : Int)

/-- Go's `x > y` on `float64`. -/
def gt : Float64 → Float64 → Bool
  | nan, _ => false
  | _, nan => false
  | inf a, inf b => !a && b
  | inf a, fin _ _ _ => !a
  | fin _ _ _, inf b => b
  | fin a m1 q1, fin b m2 q2 =>
    decide (numer b m2 q2 (min q1 q2) < numer a m1 q1 (min q1 q2))

/-- Go's `x == y` on `float64`: NaN equals nothing, the two zeros are equal. -/
def eq : Float64 → Float64 → Bool
  | inf a, inf b => a == b
  | fin a m1 q1, fin b m2 q2 => (m1 == 0 && m2 == 0) || (a == b && m1 == m2 && q1 == q2)
  | _, _ => false

/-- The value truncated toward zero, for a finite value. -/
def trunc (neg : Bool) (m : Nat) (q : Int) : Int :=
  if neg then -((if 0 ≤ q then m * 2 ^ q.toNat else m / 2 ^ (-q).toNat : Nat) : Int)
  else ((if 0 ≤ q then m * 2 ^ q.toNat else m / 2 ^ (-q).toNat : Nat) : Int)

/-- Go's conversion `int(x)`: the value truncated toward zero when it fits a 64-bit `int`;
otherwise (NaN, infinities, out of range) the result is implementation-dependent and is
given by `oor`. -/
def toInt (oor : Float64 → Int) : Float64 → Int
  | fin a m q =>
    if -(2 ^ 63 : Int) ≤ trunc a m q ∧ trunc a m q < 2 ^ 63 then trunc a m q
    else wrap64 (oor (fin a m q))
  | x => wrap64 (oor x)

end Float64

/-! ## strconv.ParseFloat -/

/-- Go's `lower(c)`, that is `c | ('x' - 'X')`, on the code of `c`. -/
def lower (c : Char) : Nat := c.toNat ||| 32

/-- The test `'0' <= c && c <= '9'`. -/
def isDecDigit (c : Char) : Bool := decide ('0'.toNat ≤ c.toNat) && decide (c.toNat ≤ '9'.toNat)

/-- The test `'a' <= lower(c) && lower(c) <= 'f'`. -/
def isHexLetter (c : Char) : Bool := decide ('a'.toNat ≤ lower c) && decide (lower c ≤ 'f'.toNat)

/-- Go's `commonPrefixLenIgnoreCase(s, prefix)`; `prefix` is in lower case. -/
def commonPrefixLenIgnoreCase : List Char → List Char → Nat
  | c :: s, p :: ps =>
    if (if 'A'.toNat ≤ c.toNat ∧ c.toNat ≤ 'Z'.toNat then c.toNat + 32 else c.toNat) = p.toNat
    then commonPrefixLenIgnoreCase s ps + 1
    else 0
  | _, _ => 0

/-- The `'i', 'I'` case of Go's `special`, entered directly or by falling through from a sign:
accepts `inf` or `infinity`, returning the value and the number of bytes consumed. -/
def specialInf (neg : Bool) (nsign : Nat) (s : List Char) : Option (Float64 × Nat) :=
  let n := commonPrefixLenIgnoreCase s "infinity".toList
  let n := if 3 < n ∧ n < 8 then 3 else n
  if n = 3 ∨ n = 8 then some (Float64.inf neg, nsign + n) else none

/-- Go's `special(s)`: the strings for infinities and NaN. -/
def special : List Char → Option (Float64 × Nat)
  | [] => none
  | c :: t =>
    if c = '+' then specialInf false 1 t
    else if c = '-' then specialInf true 1 t
    else if c = 'i' ∨ c = 'I' then specialInf false 0 (c :: t)
    else if c = 'n' ∨ c = 'N' then
      if commonPrefixLenIgnoreCase (c :: t) "nan".toList = 3 then some (Float64.nan, 3) else none
    else none

/-- Loop variables of the digit loop of Go's `readFloat`. The mantissa keeps every digit
(Go keeps 19 and re-reads the rest on its slow path, so as to round the exact value). -/
structure ReadState where
  mantissa : Nat
  nd : Nat
  dp : Int
  sawdot : Bool
  sawdigits : Bool
  underscores : Bool
  deriving DecidableEq, Repr

/-- The digit loop of `readFloat`; returns the state and the unread input. -/
def readDigits (hex : Bool) : ReadState → List Char → ReadState × List Char
  | st, [] => (st, [])
  | st, c :: cs =>
    if c = '_' then readDigits hex { st with underscores := true } cs
    else if c = '.' then
      if st.sawdot then (st, c :: cs)
      else readDigits hex { st with sawdot := true, dp := st.nd } cs
    else if isDecDigit c then
      if c = '0' ∧ st.nd = 0 then
        readDigits hex { st with sawdigits := true, dp := st.dp - 1 } cs
      else
        readDigits hex { st with sawdigits := true, nd := st.nd + 1,
                                 mantissa := st.mantissa * (if hex then 16 else 10)
                                   + (c.toNat - '0'.toNat) } cs
    else if hex && isHexLetter c then
      readDigits hex { st with sawdigits := true, nd := st.nd + 1,
                               mantissa := st.mantissa * 16 + (lower c - 'a'.toNat + 10) } cs
    else (st, c :: cs)

/-- The exponent digit loop of `readFloat`: the exponent stops growing at 10000. -/
def readExpDigits : Nat → Bool → List Char → Nat × Bool × List Char
  | e, u, [] => (e, u, [])
  | e, u, c :: cs =>
    if c = '_' then readExpDigits e true cs
    else if isDecDigit c then
      readExpDigits (if e < 10000 then e * 10 + (c.toNat - '0'.toNat) else e) u cs
    else (e, u, c :: cs)

/-- The exponent of `readFloat`, read after the exponent character: the signed exponent,
whether an underscore was seen, and the unread input. -/
def readExp : List Char → Option (Int × Bool × List Char)
  | [] => none
  | c :: t =>
    match (if c = '+' ∨ c = '-' then t else c :: t) with
    | [] => none
    | d :: t1 =>
      if isDecDigit d then
        some ((readExpDigits 0 false (d :: t1)).1 * (if c = '-' then -1 else 1),
              (readExpDigits 0 false (d :: t1)).2.1, (readExpDigits 0 false (d :: t1)).2.2)
      else none

/-- The scan of Go's `underscoreOK` after sign and base prefix; `saw` is the class of the
last character: a digit, `_`, `!` for anything else, `^` for the beginning. -/
def underscoreScan (hex : Bool) : Char → List Char → Bool
  | saw, [] => saw != '_'
  | saw, c :: cs =>
    if isDecDigit c || (hex && isHexLetter c) then underscoreScan hex '0' cs
    else if c = '_' then (if saw != '0' then false else underscoreScan hex '_' cs)
    else if saw = '_' then false
    else underscoreScan hex '!' cs

/-- The base prefix step of `underscoreOK`. -/
def underscoreBase : List Char → Bool
  | a :: b :: t =>
    if a = '0' ∧ (lower b = 'b'.toNat ∨ lower b = 'o'.toNat ∨ lower b = 'x'.toNat) then
      underscoreScan (lower b = 'x'.toNat) '0' t
    else underscoreScan false '^' (a :: b :: t)
  | s => underscoreScan false '^' s

/-- Go's `underscoreOK(s)`: underscores only between digits or after a base prefix. -/
def underscoreOK : List Char → Bool
  | [] => underscoreBase []
  | c :: t => if c = '-' ∨ c = '+' then underscoreBase t else underscoreBase (c :: t)

/-- What Go's `readFloat` returns for a well-formed number: the sign, the base, and the
exact value `mantissa * 10^exp` (decimal) or `mantissa * 2^exp` (hexadecimal). -/
structure FloatLit where
  neg : Bool
  hex : Bool
  mantissa : Nat
  exp : Int
  deriving DecidableEq, Repr

/-- The test `i+2 < len(s) && s[i] == '0' && lower(s[i+1]) == 'x'` of `readFloat`. -/
def hasHexPrefix : List Char → Bool
  | a :: b :: _ :: _ => decide (a = '0') && decide (lower b = 'x'.toNat)
  | _ => false

/-- The end of `readFloat`: the check of the underscores in the part of `s` that was read. -/
def readFinish (s : List Char) (lit : FloatLit) (underscores : Bool) (rest : List Char) :
    Option (FloatLit × List Char) :=
  if underscores && !underscoreOK (s.take (s.length - rest.length)) then none
  else some (lit, rest)

/-- Go's `readFloat(s)`: sign, optional `0x`, digits with at most one point, optional
exponent (mandatory in base 16). Returns the number and the unread input, or `none` when
the input is not a number (`ok == false`). -/
def readFloat (s : List Char) : Option (FloatLit × List Char) :=
  match s with
  | [] => none
  | c :: t =>
    let s1 := if c = '+' ∨ c = '-' then t else c :: t
    let hex := hasHexPrefix s1
    let r := readDigits hex ⟨0, 0, 0, false, false, false⟩ (if hex then s1.drop 2 else s1)
    if !r.1.sawdigits then none
    else
      let dp : Int := (if r.1.sawdot then r.1.dp else (r.1.nd : Int)) * (if hex then 4 else 1)
      let ndMant : Int := (r.1.nd : Int) * (if hex then 4 else 1)
      match r.2 with
      | [] =>
        if hex then none
        else readFinish s ⟨decide (c = '-'), hex, r.1.mantissa, dp - ndMant⟩ r.1.underscores []
      | e :: rest =>
        if lower e = (if hex then 'p' else 'e').toNat then
          match readExp rest with
          | none => none
          | some x =>
            readFinish s ⟨decide (c = '-'), hex, r.1.mantissa, dp + x.1 - ndMant⟩
              (r.1.underscores || x.2.1) x.2.2
        else if hex then none
        else
          readFinish s ⟨decide (c = '-'), hex, r.1.mantissa, dp - ndMant⟩ r.1.underscores
            (e :: rest)

/-- Round `m * 10^k` to the nearest `float64`. -/
def Float64.roundDecimal (neg : Bool) (m : Nat) (k : Int) : Float64 × Bool :=
  if 0 ≤ k then Float64.round neg (m * 10 ^ k.toNat) 1 else Float64.round neg m (10 ^ (-k).toNat)

/-- Go's `strconv.ParseFloat(s, 64)`: `some f` when `err == nil`, `none` otherwise. The whole
string has to be a number (decimal or hexadecimal floating-point literal, `inf`, `infinity`,
`nan`); the result is the nearest `float64`, ties to even; a value that rounds to an infinity
is a range error. -/
def ParseFloat (s : String) : Option Float64 :=
  match special s.toList with
  | some (f, n) => if n = s.toList.length then some f else none
  | none =>
    match readFloat s.toList with
    | none => none
    | some (lit, rest) =>
      if rest ≠ [] then none
      else if lit.hex then
        (if (Float64.roundDyadic lit.neg lit.mantissa lit.exp).2 then none
         else some (Float64.roundDyadic lit.neg lit.mantissa lit.exp).1)
      else
        (if (Float64.roundDecimal lit.neg lit.mantissa lit.exp).2 then none
         else some (Float64.roundDecimal lit.neg lit.mantissa lit.exp).1)

/-! ## time.Parse -/

/-- Go's `getnum(s, fixed)` of package `time`: a number of one or two digits, of exactly two
when `fixed`. -/
def getnum (s : List Char) (fixed : Bool) : Option (Nat × List Char) :=
  match s with
  | [] => none
  | a :: t =>
    if !isDecDigit a then none
    else
      match t with
      | [] => if fixed then none else some (a.toNat - '0'.toNat, [])
      | b :: t2 =>
        if isDecDigit b then some ((a.toNat - '0'.toNat) * 10 + (b.toNat - '0'.toNat), t2)
        else if fixed then none
        else some (a.toNat - '0'.toNat, b :: t2)

/-- Go's `skip(value, prefix)` for a one-character literal of the layout. -/
def skip (value : List Char) (lit : Char) : Option (List Char) :=
  match value with
  | [] => none
  | c :: t => if c = lit then some t else none

/-- The `stdLongYear` chunk of a layout: four digits. -/
def getYear : List Char → Option (Nat × List Char)
  | a :: b :: c :: d :: t =>
    if isDecDigit a && isDecDigit b && isDecDigit c && isDecDigit d then
      some ((a.toNat - '0'.toNat) * 1000 + (b.toNat - '0'.toNat) * 100
            + (c.toNat - '0'.toNat) * 10 + (d.toNat - '0'.toNat), t)
    else none
  | _ => none

/-- Go's `isLeap(year)`. -/
def isLeap (year : Nat) : Bool :=
  decide (year % 4 = 0) && (decide (year % 100 ≠ 0) || decide (year % 400 = 0))

/-- Go's `daysIn(month, year)`. -/
def daysIn (month year : Nat) : Nat :=
  if month = 2 then (if isLeap year then 29 else 28)
  else if month = 4 ∨ month = 6 ∨ month = 9 ∨ month = 11 then 30
  else 31

/-- The day of the month, `date.Day()`, of `time.Parse("2006-01-02", value)`; `none` when
`time.Parse` returns an error (bad syntax, month or day out of range, extra text). -/
def parseDateDay (value : String) : Option Nat :=
  match getYear value.toList with
  | none => none
  | some (year, v1) =>
    match skip v1 '-' with
    | none => none
    | some v2 =>
      match getnum v2 true with
      | none => none
      | some (month, v3) =>
        if month = 0 ∨ 12 < month then none
        else
          match skip v3 '-' with
          | none => none
          | some v4 =>
            match getnum v4 true with
            | none => none
            | some (day, v5) =>
              if v5 ≠ [] then none
              else if day < 1 ∨ daysIn month year < day then none
              else some day

/-- The hour, `t.Hour()`, of `time.Parse("15:04", value)`; `none` when `time.Parse` returns
an error. The hour has one or two digits, the minute two. -/
def parseTimeHour (value : String) : Option Nat :=
  match getnum value.toList false with
  | none => none
  | some (hour, v1) =>
    if 24 ≤ hour then none
    else
      match skip v1 ':' with
      | none => none
      | some v2 =>
        match getnum v2 true with
        | none => none
        | some (min, v3) =>
          if 60 ≤ min then none
          else if v3 ≠ [] then none
          else some hour

/-! ## unicode and strings -/

/-- What the embedding leaves to the Go release and platform: the Unicode tables for code
points above U+00FF (`unicode.Letter`, `unicode.Digit`, `unicode.White_Space`), and the
implementation-dependent result of converting to `int` a `float64` that does not fit. -/
structure GoImpl where
  letterTable : Char → Bool
  digitTable : Char → Bool
  spaceTable : Char → Bool
  floatToIntOOR : Float64 → Int

/-- Go's `unicode.IsLetter(r)`: the Latin-1 letters, then the table. -/
def IsLetter (impl : GoImpl) (r : Char) : Bool :=
  if r.toNat ≤ 0xFF then
    (decide ('A'.toNat ≤ r.toNat) && decide (r.toNat ≤ 'Z'.toNat))
    || (decide ('a'.toNat ≤ r.toNat) && decide (r.toNat ≤ 'z'.toNat))
    || decide (r.toNat = 0xAA) || decide (r.toNat = 0xB5) || decide (r.toNat = 0xBA)
    || (decide (0xC0 ≤ r.toNat) && decide (r.toNat ≤ 0xD6))
    || (decide (0xD8 ≤ r.toNat) && decide (r.toNat ≤ 0xF6))
    || decide (0xF8 ≤ r.toNat)
  else impl.letterTable r

/-- Go's `unicode.IsDigit(r)`. -/
def IsDigit (impl : GoImpl) (r : Char) : Bool :=
  if r.toNat ≤ 0xFF then isDecDigit r else impl.digitTable r

/-- Go's `unicode.IsSpace(r)`. -/
def IsSpace (impl : GoImpl) (r : Char) : Bool :=
  if r.toNat ≤ 0xFF then
    decide (r = '\t') || decide (r = '\n') || decide (r.toNat = 0x0B) || decide (r.toNat = 0x0C)
    || decide (r = '\r') || decide (r = ' ') || decide (r.toNat = 0x85) || decide (r.toNat = 0xA0)
  else impl.spaceTable r

/-- Go's `strings.TrimSpace(s)`: `s` without its leading and trailing white space. -/
def TrimSpace (impl : GoImpl) (s : String) : String :=
  String.mk (((s.toList.dropWhile (IsSpace impl)).reverse.dropWhile (IsSpace impl)).reverse)

/-- Go's `strings.HasSuffix(s, suffix)`. -/
def HasSuffix (s suffix : String) : Bool := suffix.toList.isSuffixOf s.toList

/-- Go's `len(s)` for a string: the number of bytes. -/
def len (s : String) : Nat := s.utf8ByteSize

/-! ## Data model -/

/-- Modelled from the spec: the declaration of `Item` is not among the sources. One line of
a receipt, with the JSON fields `shortDescription` and `price`, both text. -/
structure Item where
  ShortDescription : String
  Price : String
  deriving DecidableEq, Repr

/-- Modelled from the spec: the declaration of `Receipt` is not among the sources. The
submitted record, with the JSON fields `retailer`, `purchaseDate`, `purchaseTime`, `total`
(all text) and `items`. -/
structure Receipt where
  Retailer : String
  PurchaseDate : String
  PurchaseTime : String
  Total : String
  Items : List Item
  deriving DecidableEq, Repr

/-! ## utils.go -/

/-- Body of the loop of Rule 1: one point for a letter or a digit. -/
def retailerStep (impl : GoImpl) (points : Int) (c : Char) : Int :=
  if IsLetter impl c || IsDigit impl c then wrap64 (points + 1) else points

/-- Body of the loop of Rule 5: when the length of the trimmed description is a multiple
of 3 and the price parses, add `int(math.Ceil(price * 0.2))`. -/
def itemStep (impl : GoImpl) (points : Int) (item : Item) : Int :=
  if len (TrimSpace impl item.ShortDescription) % 3 = 0 then
    match ParseFloat item.Price with
    | some price =>
      wrap64 (points + Float64.toInt impl.floatToIntOOR
        (Float64.ceil (Float64.mul price (Float64.ofRat 1 5))))
    | none => points
  else points

/-- Rules 2 to 8 of `CalculatePoints`, applied once the total has parsed to `totalFloat`. -/
def scoreParsed (impl : GoImpl) (receipt : Receipt) (totalFloat : Float64) (points : Int) : Int :=
  -- Rule 2: Round dollar (no cents)
  let points := if HasSuffix receipt.Total ".00" then wrap64 (points + 50) else points
  -- Rule 3: Total is a multiple of 0.25
  let points :=
    if Float64.eq (Float64.mod totalFloat (Float64.ofRat 1 4)) (Float64.ofRat 0 1) then
      wrap64 (points + 25)
    else points
  -- Rule 4: 5 points for every two items
  let points := wrap64 (points + ((receipt.Items.length / 2 : Nat) : Int) * 5)
  -- Rule 5: Trimmed description length % 3
  let points := receipt.Items.foldl (itemStep impl) points
  -- Rule 6: bonus if total > 10.00
  let points := if Float64.gt totalFloat (Float64.ofRat 10 1) then wrap64 (points + 5) else points
  -- Rule 7: Odd day of purchase
  let points :=
    match parseDateDay receipt.PurchaseDate with
    | some day => if day % 2 = 1 then wrap64 (points + 6) else points
    | none => points
  -- Rule 8: Purchase time with hour 14
  let points :=
    match parseTimeHour receipt.PurchaseTime with
    | some hour => if hour = 14 then wrap64 (points + 10) else points
    | none => points
  points

/-- The function `CalculatePoints` of `utils.go`. -/
def CalculatePoints (impl : GoImpl) (receipt : Receipt) : Int :=
  -- Rule 1: Alphanumeric characters in retailer name
  let points := receipt.Retailer.toList.foldl (retailerStep impl) 0
  -- Convert total to float64 once
  match ParseFloat receipt.Total with
  | none => points
  | some totalFloat => scoreParsed impl receipt totalFloat points

/-! ## handlers.go -/

/-- The loop of `validateReceipt` over the items: the first item with an empty description
or an empty price is an error. -/
def validateItems : List Item → Option String
  | [] => none
  | item :: rest =>
    if item.ShortDescription = "" ∨ item.Price = "" then
      some "each item must have a short description and price"
    else validateItems rest

/-- The function `validateReceipt` of `handlers.go`: `none` for `nil`, `some msg` for the
error `errors.New(msg)`. -/
def validateReceipt (r : Receipt) : Option String :=
  if r.Retailer = "" ∨ r.PurchaseDate = "" ∨ r.PurchaseTime = "" ∨ r.Total = "" then
    some "missing required fields"
  else if r.Items.length = 0 then
    some "receipt must contain at least one item"
  else
    validateItems r.Items

/-- The global `receiptStore`, a `map[string]int`: a partial function from identifiers to
points. -/
abbrev Store := String → Option Int

/-- The assignment `receiptStore[id] = points`. -/
def Store.set (store : Store) (id : String) (points : Int) : Store :=
  fun k => if k = id then some points else store k

/-- What a handler wrote: the JSON object with the identifier, the JSON object with the
points, or the text given to `http.Error`. -/
inductive Payload where
  | id (id : String) : Payload
  | points (points : Int) : Payload
  | text (msg : String) : Payload
  deriving DecidableEq, Repr

/-- The answer of a handler: status code and payload. -/
structure Response where
  status : Nat
  payload : Payload
  deriving DecidableEq, Repr

/-- The body of a submission as `ProcessReceiptHandler` sees it: absent (`r.Body == nil`),
not decodable by the JSON decoder, or decoded to a receipt. -/
inductive Body where
  | absent : Body
  | malformed : Body
  | decoded (receipt : Receipt) : Body
  deriving DecidableEq, Repr

/-- The lower-case hexadecimal digit of `n`, as `encoding/hex` writes it. -/
def hexDigit (n : Nat) : Char := "0123456789abcdef".toList.getD (n % 16) '0'

/-- The two hexadecimal digits of a byte. -/
def hexByte (b : Nat) : List Char := [hexDigit (b % 256 / 16), hexDigit (b % 16)]

/-- The identifier `uuid.New().String()` of package `github.com/google/uuid`, given the 16
bytes read from the random source (`rnd i % 256` is byte `i`): version and variant bits are
set in bytes 6 and 8, and the bytes are written in hexadecimal in the groups 8-4-4-4-12. -/
def uuidString (rnd : Nat → Nat) : String :=
  String.mk (hexByte (rnd 0) ++ hexByte (rnd 1) ++ hexByte (rnd 2) ++ hexByte (rnd 3) ++ ['-']
    ++ hexByte (rnd 4) ++ hexByte (rnd 5) ++ ['-']
    ++ hexByte (rnd 6 % 16 + 0x40) ++ hexByte (rnd 7) ++ ['-']
    ++ hexByte (rnd 8 % 64 + 0x80) ++ hexByte (rnd 9) ++ ['-']
    ++ hexByte (rnd 10) ++ hexByte (rnd 11) ++ hexByte (rnd 12) ++ hexByte (rnd 13)
    ++ hexByte (rnd 14) ++ hexByte (rnd 15))

/-- The function `ProcessReceiptHandler` of `handlers.go`, as a step on the store. `rnd` is
the random source of the identifier, `encodeOk` tells whether `json.NewEncoder(w).Encode`
succeeds in writing the response. -/
def ProcessReceiptHandler (impl : GoImpl) (rnd : Nat → Nat) (encodeOk : Bool)
    (receiptStore : Store) (body : Body) : Store × Response :=
  match body with
  | Body.absent =>
    (receiptStore, ⟨400, Payload.text "Request body is empty. Please verify input."⟩)
  | Body.malformed =>
    (receiptStore, ⟨400, Payload.text "Invalid JSON format. Please verify input."⟩)
  | Body.decoded receipt =>
    match validateReceipt receipt with
    | some _ =>
      (receiptStore, ⟨400, Payload.text "Invalid receipt payload. Please verify input."⟩)
    | none =>
      if encodeOk then
        (receiptStore.set (uuidString rnd) (CalculatePoints impl receipt),
          ⟨200, Payload.id (uuidString rnd)⟩)
      else
        (receiptStore.set (uuidString rnd) (CalculatePoints impl receipt),
          ⟨500, Payload.text "Could not encode response."⟩)

/-- The function `GetPointsHandler` of `handlers.go`. `vars` is the entry `"id"` of
`mux.Vars(r)`, `none` when there is none; `encodeOk` as in `ProcessReceiptHandler`. -/
def GetPointsHandler (encodeOk : Bool) (receiptStore : Store) (vars : Option String) :
    Response :=
  match vars with
  | none => ⟨400, Payload.text "Missing receipt ID in path."⟩
  | some id =>
    if id = "" then ⟨400, Payload.text "Missing receipt ID in path."⟩
    else
      match receiptStore id with
      | none => ⟨404, Payload.text "No receipt found for that ID."⟩
      | some points =>
        if encodeOk then ⟨200, Payload.points points⟩
        else ⟨500, Payload.text "Could not encode response."⟩

/-! ## The rules as the specification states them -/

/-- Rule 5 for one item, in the words of the specification: when the length of the trimmed
description is a multiple of 3 and the price parses as a decimal number, the bonus is
`ceil(price * 0.2)`; otherwise it is 0. -/
def rule5Bonus (impl : GoImpl) (item : Item) : Int :=
  if len (TrimSpace impl item.ShortDescription) % 3 = 0 then
    match ParseFloat item.Price with
    | some price =>
      Float64.toInt impl.floatToIntOOR (Float64.ceil (Float64.mul price (Float64.ofRat 1 5)))
    | none => 0
  else 0

/-- The points of Rules 1 to 4 and 6 to 8 in the words of the specification, added as
integers, for a receipt whose total has parsed to `totalFloat`. -/
def otherRules (impl : GoImpl) (r : Receipt) (totalFloat : Float64) : Int :=
  ((r.Retailer.toList.countP (fun c => IsLetter impl c || IsDigit impl c) : Nat) : Int)
    + (if HasSuffix r.Total ".00" then 50 else 0)
    + (if Float64.eq (Float64.mod totalFloat (Float64.ofRat 1 4)) (Float64.ofRat 0 1) then 25
       else 0)
    + ((r.Items.length / 2 : Nat) : Int) * 5
    + (if Float64.gt totalFloat (Float64.ofRat 10 1) then 5 else 0)
    + (match parseDateDay r.PurchaseDate with
       | some day => if day % 2 = 1 then 6 else 0
       | none => 0)
    + (match parseTimeHour r.PurchaseTime with
       | some hour => if hour = 14 then 10 else 0
       | none => 0)

/-- The bound `m * 2^q ≤ 2^k` on a finite value, in the form used by the proofs. -/
def Float64.valLe (m : Nat) (q : Int) (k : Nat) : Prop :=
  m = 0 ∨ (q ≤ k ∧ m ≤ 2 ^ ((k : Int) - q).toNat)

/-- The value `x` is a finite number between 0 and `2^k`, both included; the zero of either
sign is such a number. -/
def Float64.nonnegAtMost (k : Nat) : Float64 → Prop
  | Float64.fin false m q =>
    if 0 ≤ q then m * 2 ^ q.toNat ≤ 2 ^ k else m ≤ 2 ^ k * 2 ^ (-q).toNat
  | Float64.fin true m _ => m = 0
  | _ => False

/-! ## Sample receipts -/

/-- The receipt of the scenario with retailer `M&M Corner Market`, on an even day, at 13:01. -/
def mmReceipt : Receipt :=
  ⟨"M&M Corner Market", "2022-03-20", "13:01", "9.00",
    [⟨"Gatorade", "2.25"⟩, ⟨"Gatorade", "2.25"⟩]⟩

/-- The receipt of `TestProcessReceiptHandler_DescLengthMultipleOf3`. -/
def targetReceipt : Receipt :=
  ⟨"Target", "2022-01-01", "14:01", "24.25",
    [⟨"Emils Cheese Pizza", "12.25"⟩, ⟨"Klarbrunn 12-PK 12 FL OZ", "12.00"⟩]⟩

/-- The receipt of the scenario with a malformed total. -/
def abcReceipt : Receipt :=
  ⟨"Target", "2022-01-01", "14:01", "abc",
    [⟨"Emils Cheese Pizza", "12.25"⟩, ⟨"Klarbrunn 12-PK 12 FL OZ", "12.00"⟩]⟩

/-- A receipt with a negative price on an item whose description has 6 characters. -/
def refundReceipt : Receipt :=
  ⟨"Shop", "2022-03-20", "13:01", "1.10", [⟨"Refund", "-100.00"⟩]⟩

/-- A receipt with two very large prices. -/
def hugeReceipt : Receipt :=
  ⟨"Shop", "2022-03-20", "13:01", "1.10", [⟨"abc", "4.6e19"⟩, ⟨"abc", "4.6e19"⟩]⟩

/-- A receipt with an item whose description is made of three spaces. -/
def blankReceipt : Receipt :=
  ⟨"Shop", "2022-03-20", "13:01", "1.10", [⟨"   ", "5.00"⟩]⟩

/-- The receipt of `TestProcessReceiptHandler_EmptyItemDescription`. -/
def emptyDescReceipt : Receipt :=
  ⟨"Test Store", "2022-01-01", "13:00", "5.00", [⟨"", "5.00"⟩]⟩

/-- A random source, all of whose bytes are zero. -/
def zeroRnd : Nat → Nat := fun _ => 0

/-- The store of `TestGetPointsHandler_ExistingID`. -/
def mockStore : Store := fun k => if k = "mock-id" then some 109 else none

/-- A store that already holds, with 0 points, the identifier made of the bytes of
`zeroRnd`. -/
def collidingStore : Store := fun k => if k = uuidString zeroRnd then some 0 else none

/-- A valid receipt that scores the largest `int`, 2^63 - 1: 4 letters, one pair of items,
and three items that earn 2^62, 2^62 - 512 and 502 points. -/
def bigReceipt : Receipt :=
  ⟨"Shop", "2022-03-20", "13:01", "1.10",
    [⟨"abc", "23058430092136939520"⟩, ⟨"abc", "23058430092136935424"⟩, ⟨"abc", "2509"⟩]⟩

/-- A valid receipt that scores 2^63 - 1 with the total `10.00`. -/
def bigTotalReceipt : Receipt :=
  ⟨"Shop", "2022-03-20", "13:01", "10.00",
    [⟨"abc", "23058430092136939520"⟩, ⟨"abc", "23058430092136935424"⟩, ⟨"abc", "2134"⟩]⟩

/-- A receipt with an item whose price is a negative zero. -/
def negZeroReceipt : Receipt :=
  ⟨"Shop", "2022-03-20", "13:01", "1.10", [⟨"abc", "-0.00"⟩]⟩

/-! # Theorems -/

/-! ## Machine integers -/

theorem wrap64_of_range (z : Int) (h1 : -(2 ^ 63 : Int) ≤ z) (h2 : z < 2 ^ 63) : wrap64 z = z := by
  unfold wrap64; omega

theorem wrap64_add_wrap64 (a b : Int) : wrap64 (wrap64 a + b) = wrap64 (a + b) := by
  unfold wrap64; omega

theorem ite_wrap (c : Prop) [Decidable c] (p k : Int) :
    (if c then wrap64 (p + k) else wrap64 p) = wrap64 (p + if c then k else 0) := by
  split
  · rfl
  · simp

namespace Float64

theorem log2Aux_spec (fuel n : Nat) (h : n ≤ fuel) (hn : 1 ≤ n) :
    2 ^ log2Aux fuel n ≤ n ∧ n < 2 ^ (log2Aux fuel n + 1) := by
  induction fuel generalizing n with
  | zero => omega
  | succ f ih =>
    unfold log2Aux
    by_cases h2 : n < 2
    · rw [if_pos h2]
      simp
      omega
    · rw [if_neg h2]
      obtain ⟨a, b⟩ := ih (n / 2) (by omega) (by omega)
      constructor
      · rw [pow_succ]; omega
      · rw [pow_succ]; omega

theorem log2_spec (n : Nat) (hn : 1 ≤ n) : 2 ^ log2 n ≤ n ∧ n < 2 ^ (log2 n + 1) :=
  log2Aux_spec n n (le_refl n) hn

/-- The rounded quotient is at most any natural bound of the exact quotient. -/
theorem roundHalfEven_le (a b K : Nat) (hb : 0 < b) (h : a ≤ b * K) : roundHalfEven a b ≤ K := by
  unfold roundHalfEven
  have hdiv : a / b ≤ K := by
    apply Nat.div_le_of_le_mul
    exact h
  split
  · rename_i hc
    by_contra hlt
    have heq : a / b = K := by omega
    have hdm := Nat.div_add_mod a b
    rw [heq] at hdm
    have hmod : a % b = 0 := by omega
    rw [hmod] at hc
    omega
  · exact hdiv

theorem ulpExp_le (num den : Nat) :
    ulpExp num den ≤ max ((log2 num : Int) - (log2 den : Int) - 52) (-1074) := by
  unfold ulpExp
  simp only
  split <;> omega



theorem scale2_le (num den k : Nat) (q : Int) (hden : 1 ≤ den) (h : num ≤ den * 2 ^ k)
    (hq : q ≤ k) :
    (scale2 num den q).1 ≤ (scale2 num den q).2 * 2 ^ ((k : Int) - q).toNat
      ∧ 0 < (scale2 num den q).2 := by
  unfold scale2
  split
  · rename_i h0
    have he : q.toNat + ((k : Int) - q).toNat = k := by omega
    have hp : 0 < 2 ^ q.toNat := Nat.pow_pos (by norm_num)
    refine ⟨?_, Nat.mul_pos hden hp⟩
    show num ≤ den * 2 ^ q.toNat * 2 ^ ((k : Int) - q).toNat
    rw [Nat.mul_assoc, ← pow_add, he]
    exact h
  · rename_i h0
    have he : ((k : Int) - q).toNat = k + (-q).toNat := by omega
    refine ⟨?_, hden⟩
    show num * 2 ^ (-q).toNat ≤ den * 2 ^ ((k : Int) - q).toNat
    rw [he, pow_add, ← Nat.mul_assoc]
    exact Nat.mul_le_mul_right _ h

theorem log2_diff_le (num den k : Nat) (hnum : 1 ≤ num) (hden : 1 ≤ den)
    (h : num ≤ den * 2 ^ k) : (log2 num : Int) - (log2 den : Int) ≤ k := by
  obtain ⟨h1, _⟩ := log2_spec num hnum
  obtain ⟨_, h2⟩ := log2_spec den hden
  have h3 : 2 ^ log2 num < 2 ^ (log2 den + 1 + k) := by
    calc 2 ^ log2 num ≤ num := h1
      _ ≤ den * 2 ^ k := h
      _ < 2 ^ (log2 den + 1) * 2 ^ k :=
        Nat.mul_lt_mul_of_pos_right h2 (Nat.pow_pos (by norm_num))
      _ = 2 ^ (log2 den + 1 + k) := by rw [← pow_add]
  have h4 := (Nat.pow_lt_pow_iff_right (by norm_num : 1 < 2)).mp h3
  omega

theorem round_le (neg : Bool) (num den k : Nat) (hden : 1 ≤ den) (h : num ≤ den * 2 ^ k)
    (hk : k ≤ 1023) :
    ∃ m q, round neg num den = (fin neg m q, false) ∧ valLe m q k := by
  unfold round
  by_cases h0 : num = 0
  · rw [if_pos h0]
    exact ⟨0, -1074, rfl, Or.inl rfl⟩
  · rw [if_neg h0]
    have hq := ulpExp_le num den
    have hl := log2_diff_le num den k (by omega) hden h
    have hqk : ulpExp num den ≤ k := by omega
    obtain ⟨hs, hpos⟩ := scale2_le num den k (ulpExp num den) hden h hqk
    have hm := roundHalfEven_le _ _ _ hpos hs
    simp only
    by_cases h53 : roundHalfEven (scale2 num den (ulpExp num den)).1
        (scale2 num den (ulpExp num den)).2 = 2 ^ 53
    · rw [if_pos h53]
      rw [h53] at hm
      have he : 53 ≤ ((k : Int) - ulpExp num den).toNat :=
        (Nat.pow_le_pow_iff_right (by norm_num : 1 < 2)).mp hm
      have h971 : ¬ (971 < ulpExp num den + 1) := by omega
      simp only [h971, if_false]
      refine ⟨2 ^ 52, ulpExp num den + 1, rfl, Or.inr ⟨by omega, ?_⟩⟩
      apply Nat.pow_le_pow_right (by norm_num)
      omega
    · rw [if_neg h53]
      have h971 : ¬ (971 < ulpExp num den) := by omega
      simp only [h971, if_false]
      exact ⟨_, _, rfl, Or.inr ⟨hqk, hm⟩⟩


theorem roundDyadic_le (neg : Bool) (M : Nat) (Q : Int) (k : Nat) (h : valLe M Q k)
    (hk : k ≤ 1023) :
    ∃ m q, roundDyadic neg M Q = (fin neg m q, false) ∧ valLe m q k := by
  unfold roundDyadic
  rcases h with h0 | ⟨hQ, hM⟩
  · subst h0
    split
    · exact round_le neg _ 1 k (le_refl 1) (by simp) hk
    · exact round_le neg _ _ k (Nat.pow_pos (by norm_num)) (by simp) hk
  · split
    · rename_i h0
      apply round_le neg _ 1 k (le_refl 1) _ hk
      have he : ((k : Int) - Q).toNat + Q.toNat = k := by omega
      calc M * 2 ^ Q.toNat ≤ 2 ^ ((k : Int) - Q).toNat * 2 ^ Q.toNat :=
            Nat.mul_le_mul_right _ hM
        _ = 1 * 2 ^ k := by rw [← pow_add, he, Nat.one_mul]
    · rename_i h0
      apply round_le neg _ _ k (Nat.pow_pos (by norm_num)) _ hk
      have he : ((k : Int) - Q).toNat = (-Q).toNat + k := by omega
      rw [← pow_add, ← he]
      exact hM

theorem ofRat_one_fifth : ofRat 1 5 = fin false 7205759403792794 (-55) := by decide

theorem mul_fifth_le (m : Nat) (q : Int) (k : Nat) (h : valLe m q (k + 2)) (hk : k ≤ 1023) :
    ∃ m1 q1, mul (fin false m q) (ofRat 1 5) = fin false m1 q1 ∧ valLe m1 q1 k := by
  rw [ofRat_one_fifth]
  have hv : valLe (m * 7205759403792794) (q + -55) k := by
    rcases h with h0 | ⟨hq, hm⟩
    · left; simp [h0]
    · right
      refine ⟨by push_cast at hq; omega, ?_⟩
      have he : ((k : Int) - (q + -55)).toNat = (((k + 2 : Nat) : Int) - q).toNat + 53 := by
        push_cast at hq ⊢; omega
      rw [he, pow_add]
      exact Nat.mul_le_mul hm (by norm_num)
  obtain ⟨m1, q1, h1, h2⟩ := roundDyadic_le (false != false) _ _ k hv hk
  refine ⟨m1, q1, ?_, h2⟩
  show (roundDyadic (false != false) (m * 7205759403792794) (q + -55)).1 = fin false m1 q1
  rw [h1]
  rfl

theorem ceil_le (m : Nat) (q : Int) (k : Nat) (h : valLe m q k) (hk : k ≤ 1023) :
    ∃ m1 q1, ceil (fin false m q) = fin false m1 q1 ∧ valLe m1 q1 k := by
  simp only [ceil]
  by_cases hq : 0 ≤ q
  · rw [if_pos hq]
    exact ⟨m, q, rfl, h⟩
  · rw [if_neg hq]
    simp only [Bool.false_eq_true, if_false]
    have hd : 0 < 2 ^ (-q).toNat := Nat.pow_pos (by norm_num)
    have hn : (m + 2 ^ (-q).toNat - 1) / 2 ^ (-q).toNat ≤ 1 * 2 ^ k := by
      rw [Nat.one_mul]
      rcases h with h0 | ⟨_, hm⟩
      · subst h0
        have : (0 + 2 ^ (-q).toNat - 1) / 2 ^ (-q).toNat = 0 :=
          Nat.div_eq_of_lt (by omega)
        rw [this]
        exact Nat.zero_le _
      · have he : ((k : Int) - q).toNat = k + (-q).toNat := by omega
        rw [he, pow_add] at hm
        apply Nat.le_of_lt_succ
        rw [Nat.div_lt_iff_lt_mul hd]
        have : (2 ^ k).succ * 2 ^ (-q).toNat = 2 ^ k * 2 ^ (-q).toNat + 2 ^ (-q).toNat := by
          rw [Nat.succ_mul]
        omega
    obtain ⟨m1, q1, h1, h2⟩ := round_le false _ 1 k (le_refl 1) hn hk
    exact ⟨m1, q1, by rw [h1], h2⟩

theorem trunc_le (m : Nat) (q : Int) (k : Nat) (h : valLe m q k) :
    0 ≤ trunc false m q ∧ trunc false m q ≤ 2 ^ k := by
  unfold trunc
  simp only [Bool.false_eq_true, if_false]
  refine ⟨Int.natCast_nonneg _, ?_⟩
  have hgoal : (if 0 ≤ q then m * 2 ^ q.toNat else m / 2 ^ (-q).toNat) ≤ 2 ^ k := by
    rcases h with h0 | ⟨hq, hm⟩
    · subst h0
      split <;> simp
    · split
      · rename_i h0
        have he : ((k : Int) - q).toNat + q.toNat = k := by omega
        calc m * 2 ^ q.toNat ≤ 2 ^ ((k : Int) - q).toNat * 2 ^ q.toNat :=
              Nat.mul_le_mul_right _ hm
          _ = 2 ^ k := by rw [← pow_add, he]
      · rename_i h0
        have he : ((k : Int) - q).toNat = k + (-q).toNat := by omega
        rw [he, pow_add] at hm
        exact Nat.div_le_of_le_mul (by rw [Nat.mul_comm]; exact hm)
  exact_mod_cast hgoal

theorem toInt_le (oor : Float64 → Int) (m : Nat) (q : Int) (k : Nat) (h : valLe m q k)
    (hk : k ≤ 62) :
    0 ≤ toInt oor (fin false m q) ∧ toInt oor (fin false m q) ≤ 2 ^ k := by
  obtain ⟨h1, h2⟩ := trunc_le m q k h
  have h3 : (2 : Int) ^ k ≤ 2 ^ 62 := pow_le_pow_right₀ (by norm_num) hk
  simp only [toInt]
  rw [if_pos ⟨by omega, by omega⟩]
  exact ⟨h1, h2⟩

theorem valLe_of_nonnegAtMost (k m : Nat) (q : Int) (h : nonnegAtMost k (fin false m q)) :
    valLe m q k := by
  simp only [nonnegAtMost] at h
  by_cases h0 : m = 0
  · exact Or.inl h0
  · right
    by_cases hq : 0 ≤ q
    · rw [if_pos hq] at h
      have hpos : 0 < 2 ^ q.toNat := Nat.pow_pos (by norm_num)
      have h1 : 2 ^ q.toNat ≤ 2 ^ k :=
        le_trans (Nat.le_mul_of_pos_left (2 ^ q.toNat) (Nat.pos_of_ne_zero h0)) h
      have h2 : q.toNat ≤ k := (Nat.pow_le_pow_iff_right (by norm_num : 1 < 2)).mp h1
      refine ⟨by omega, ?_⟩
      have he : ((k : Int) - q).toNat + q.toNat = k := by omega
      have h' : m * 2 ^ q.toNat ≤ 2 ^ ((k : Int) - q).toNat * 2 ^ q.toNat := by
        rw [← pow_add, he]
        exact h
      exact Nat.le_of_mul_le_mul_right h' hpos
    · rw [if_neg hq] at h
      refine ⟨by omega, ?_⟩
      have he : ((k : Int) - q).toNat = k + (-q).toNat := by omega
      rw [he, pow_add]
      exact h

theorem roundDyadic_zero (a : Bool) (e : Int) : (roundDyadic a 0 e).1 = fin a 0 (-1074) := by
  unfold roundDyadic round
  split_ifs <;> simp_all

/-- The Rule 5 bonus of a negative zero is 0: `-0 * 0.2 = -0`, `Ceil(-0) = -0`,
`int(-0) = 0`. -/
theorem bonus_negZero (oor : Float64 → Int) (q : Int) :
    toInt oor (ceil (mul (fin true 0 q) (ofRat 1 5))) = 0 := by
  have h1 : mul (fin true 0 q) (ofRat 1 5) = fin true 0 (-1074) := by
    rw [ofRat_one_fifth]
    show (roundDyadic (true != false) (0 * 7205759403792794) (q + -55)).1 = fin true 0 (-1074)
    rw [Nat.zero_mul, roundDyadic_zero]
    rfl
  have h2 : ∀ e : Int, e < 0 → ceil (fin true 0 e) = fin true 0 (-1074) := by
    intro e he
    simp only [ceil]
    rw [if_neg (by omega), if_pos trivial, Nat.zero_div]
    rfl
  have h3 : ∀ e : Int, trunc true 0 e = 0 := by
    intro e
    simp only [trunc, Nat.zero_mul, Nat.zero_div, ite_self, if_true, Nat.cast_zero, neg_zero]
  rw [h1, h2 (-1074) (by norm_num)]
  simp only [toInt, h3]
  rw [if_pos ⟨by norm_num, by norm_num⟩]

/-- The Rule 5 bonus of a price between 0 and `2^(k+2)` lies between 0 and `2^k`. -/
theorem bonus_bounds (oor : Float64 → Int) (p : Float64) (k : Nat) (hk : k ≤ 62)
    (h : nonnegAtMost (k + 2) p) :
    0 ≤ toInt oor (ceil (mul p (ofRat 1 5))) ∧ toInt oor (ceil (mul p (ofRat 1 5))) ≤ 2 ^ k := by
  match p, h with
  | fin false m q, h =>
    obtain ⟨m1, q1, e1, v1⟩ := mul_fifth_le m q k (valLe_of_nonnegAtMost _ m q h) (by omega)
    obtain ⟨m2, q2, e2, v2⟩ := ceil_le m1 q1 k v1 (by omega)
    rw [e1, e2]
    exact toInt_le oor m2 q2 k v2 hk
  | fin true m q, h =>
    have h0 : m = 0 := h
    subst h0
    rw [bonus_negZero oor q]
    exact ⟨le_refl 0, by positivity⟩

end Float64

/-! ## Strings -/

theorem length_le_len (s : String) : s.toList.length ≤ len s := by
  unfold len String.utf8ByteSize
  cases s with
  | mk l =>
    show l.length ≤ String.utf8ByteSize.go l
    induction l with
    | nil => simp [String.utf8ByteSize.go]
    | cons c cs ih =>
      have := c.utf8Size_pos
      simp only [String.utf8ByteSize.go, List.length_cons]
      omega

theorem len_pos_of_ne_empty (s : String) (h : s ≠ "") : 0 < len s := by
  have h1 := length_le_len s
  cases s with
  | mk l =>
    cases l with
    | nil => exact absurd rfl h
    | cons c cs =>
      simp only [String.toList, List.length_cons] at h1
      omega

theorem len_eq_zero_iff (s : String) : len s = 0 ↔ s.toList = [] := by
  constructor
  · intro h
    have h1 := length_le_len s
    rw [h] at h1
    exact List.length_eq_zero.mp (Nat.le_zero.mp h1)
  · intro h
    cases s with
    | mk l =>
      simp only [String.toList] at h
      subst h
      rfl

theorem len_TrimSpace_eq_zero_iff (impl : GoImpl) (s : String) :
    len (TrimSpace impl s) = 0 ↔ ∀ c ∈ s.toList, IsSpace impl c = true := by
  rw [len_eq_zero_iff]
  unfold TrimSpace
  simp only [String.toList]
  rw [List.reverse_eq_nil_iff, List.dropWhile_eq_nil_iff]
  constructor
  · intro h
    have h2 : List.dropWhile (IsSpace impl) (List.dropWhile (IsSpace impl) s.data) = [] := by
      rw [List.dropWhile_eq_nil_iff]
      intro x hx
      exact h x (List.mem_reverse.mpr hx)
    rw [List.dropWhile_idempotent] at h2
    exact List.dropWhile_eq_nil_iff.mp h2
  · intro h x hx
    exact h x (List.dropWhile_subset _ (List.mem_reverse.mp hx))

/-! ## The scoring loops -/

theorem foldl_retailerStep_wrap (impl : GoImpl) (l : List Char) (p : Int) :
    l.foldl (retailerStep impl) (wrap64 p)
      = wrap64 (p + ((l.countP (fun c => IsLetter impl c || IsDigit impl c) : Nat) : Int)) := by
  induction l generalizing p with
  | nil => simp
  | cons c cs ih =>
    rw [List.foldl_cons, List.countP_cons]
    by_cases hc : (IsLetter impl c || IsDigit impl c) = true
    · have hstep : retailerStep impl (wrap64 p) c = wrap64 (p + 1) := by
        unfold retailerStep
        rw [if_pos hc, wrap64_add_wrap64]
      rw [hstep, ih]
      simp only [hc, if_true]
      push_cast
      congr 1
      ring
    · have hstep : retailerStep impl (wrap64 p) c = wrap64 p := by
        unfold retailerStep
        rw [if_neg hc]
      rw [hstep, ih]
      simp [hc]

theorem rule1_eq_wrap (impl : GoImpl) (s : String) :
    s.toList.foldl (retailerStep impl) 0
      = wrap64 ((s.toList.countP (fun c => IsLetter impl c || IsDigit impl c) : Nat) : Int) := by
  have h := foldl_retailerStep_wrap impl s.toList 0
  rw [show wrap64 0 = 0 by decide, Int.zero_add] at h
  exact h

theorem countP_le_len (impl : GoImpl) (s : String) :
    s.toList.countP (fun c => IsLetter impl c || IsDigit impl c) ≤ len s :=
  le_trans (List.countP_le_length _) (length_le_len s)

/-- Rule 1 on a retailer whose length fits an `int`: the number of letters and digits. -/
theorem rule1_eq_count (impl : GoImpl) (s : String) (hlen : len s < 2 ^ 63) :
    s.toList.foldl (retailerStep impl) 0
      = ((s.toList.countP (fun c => IsLetter impl c || IsDigit impl c) : Nat) : Int) := by
  rw [rule1_eq_wrap]
  have h := countP_le_len impl s
  exact wrap64_of_range _ (by omega) (by omega)

theorem itemStep_wrap (impl : GoImpl) (p : Int) (item : Item) :
    itemStep impl (wrap64 p) item = wrap64 (p + rule5Bonus impl item) := by
  unfold itemStep rule5Bonus
  split
  · split
    · rw [wrap64_add_wrap64]
    · simp
  · simp

theorem foldl_itemStep_wrap (impl : GoImpl) (items : List Item) (p : Int) :
    items.foldl (itemStep impl) (wrap64 p)
      = wrap64 (p + (items.map (rule5Bonus impl)).sum) := by
  induction items generalizing p with
  | nil => simp
  | cons a l ih =>
    rw [List.foldl_cons, itemStep_wrap, ih, List.map_cons, List.sum_cons]
    congr 1
    ring

/-- With a total that parses, the score is the sum of the points of the rules, reduced to
the range of `int`. -/
theorem CalculatePoints_eq_sum (impl : GoImpl) (r : Receipt) (t : Float64)
    (h : ParseFloat r.Total = some t) :
    CalculatePoints impl r
      = wrap64 (otherRules impl r t + (r.Items.map (rule5Bonus impl)).sum) := by
  unfold CalculatePoints
  simp only [h]
  rw [rule1_eq_wrap]
  unfold scoreParsed otherRules
  cases parseDateDay r.PurchaseDate <;> cases parseTimeHour r.PurchaseTime <;>
    simp only [ite_wrap, wrap64_add_wrap64, foldl_itemStep_wrap] <;> congr 1 <;> ring

/-- With a total that does not parse, the score is the result of Rule 1. -/
theorem CalculatePoints_eq_rule1 (impl : GoImpl) (r : Receipt) (hlen : len r.Retailer < 2 ^ 63)
    (h : ParseFloat r.Total = none) :
    CalculatePoints impl r
      = ((r.Retailer.toList.countP (fun c => IsLetter impl c || IsDigit impl c) : Nat) : Int) := by
  unfold CalculatePoints
  simp only [h]
  exact rule1_eq_count impl r.Retailer hlen

theorem rule5Bonus_bounds (impl : GoImpl) (item : Item)
    (h : ∀ p, ParseFloat item.Price = some p → Float64.nonnegAtMost 32 p) :
    0 ≤ rule5Bonus impl item ∧ rule5Bonus impl item ≤ 2 ^ 30 := by
  unfold rule5Bonus
  split
  · cases hp : ParseFloat item.Price with
    | none => simp
    | some p => exact Float64.bonus_bounds impl.floatToIntOOR p 30 (by norm_num) (h p hp)
  · simp

theorem sum_rule5Bonus_bounds (impl : GoImpl) (items : List Item)
    (h : ∀ item ∈ items, ∀ p, ParseFloat item.Price = some p → Float64.nonnegAtMost 32 p) :
    0 ≤ (items.map (rule5Bonus impl)).sum
      ∧ (items.map (rule5Bonus impl)).sum ≤ (items.length : Int) * 2 ^ 30 := by
  induction items with
  | nil => simp
  | cons a l ih =>
    obtain ⟨h1, h2⟩ := rule5Bonus_bounds impl a (h a (List.mem_cons_self a l))
    obtain ⟨h3, h4⟩ := ih (fun item hm => h item (List.mem_cons_of_mem a hm))
    simp only [List.map_cons, List.sum_cons, List.length_cons]
    push_cast
    constructor
    · omega
    · have : ((l.length : Int) + 1) * 2 ^ 30 = (l.length : Int) * 2 ^ 30 + 2 ^ 30 := by ring
      omega

theorem otherRules_bounds (impl : GoImpl) (r : Receipt) (t : Float64) :
    0 ≤ otherRules impl r t
      ∧ otherRules impl r t ≤ (len r.Retailer : Int) + 96 + (r.Items.length : Int) * 5 := by
  have h1 : ((r.Retailer.toList.countP (fun c => IsLetter impl c || IsDigit impl c) : Nat) : Int)
      ≤ (len r.Retailer : Int) := by exact_mod_cast countP_le_len impl r.Retailer
  have h2 : ((r.Items.length / 2 : Nat) : Int) ≤ (r.Items.length : Int) := by
    exact_mod_cast Nat.div_le_self _ _
  unfold otherRules
  cases parseDateDay r.PurchaseDate <;> cases parseTimeHour r.PurchaseTime <;>
    simp only <;> split_ifs <;> constructor <;> omega

/-- The score is not negative when prices, item count and retailer length are bounded. -/
theorem CalculatePoints_nonneg_of_bounds (impl : GoImpl) (r : Receipt)
    (hret : len r.Retailer < 2 ^ 32) (hitems : r.Items.length < 2 ^ 32)
    (hprice : ∀ item ∈ r.Items, ∀ p, ParseFloat item.Price = some p →
      Float64.nonnegAtMost 32 p) :
    0 ≤ CalculatePoints impl r := by
  cases ht : ParseFloat r.Total with
  | none =>
    rw [CalculatePoints_eq_rule1 impl r (by omega) ht]
    exact Int.natCast_nonneg _
  | some t =>
    rw [CalculatePoints_eq_sum impl r t ht]
    obtain ⟨h1, h2⟩ := otherRules_bounds impl r t
    obtain ⟨h3, h4⟩ := sum_rule5Bonus_bounds impl r.Items hprice
    have h5 : (r.Items.length : Int) * 2 ^ 30 < 2 ^ 32 * 2 ^ 30 := by
      apply Int.mul_lt_mul_of_pos_right _ (by norm_num)
      exact_mod_cast hitems
    have h6 : (len r.Retailer : Int) < 2 ^ 32 := by exact_mod_cast hret
    have h7 : (r.Items.length : Int) < 2 ^ 32 := by exact_mod_cast hitems
    rw [wrap64_of_range _ (by omega) (by omega)]
    omega

/-! ## Sample receipts, evaluated -/

set_option maxRecDepth 100000 in
theorem refundReceipt_points (impl : GoImpl) : CalculatePoints impl refundReceipt = -16 := by
  have ht : ParseFloat refundReceipt.Total
      = some (Float64.fin false 4953959590107546 (-52)) := by decide
  have ho : otherRules impl refundReceipt (Float64.fin false 4953959590107546 (-52)) = 4 := rfl
  have hl : len (TrimSpace impl "Refund") = 6 := rfl
  have hb : rule5Bonus impl ⟨"Refund", "-100.00"⟩ = -20 := by
    simp only [rule5Bonus, hl]
    rfl
  rw [CalculatePoints_eq_sum impl refundReceipt _ ht, ho]
  simp only [refundReceipt, List.map_cons, List.map_nil, List.sum_cons, List.sum_nil, hb]
  decide

set_option maxRecDepth 100000 in
theorem hugeReceipt_points (impl : GoImpl) :
    CalculatePoints impl hugeReceipt = -46744073709551607 := by
  have ht : ParseFloat hugeReceipt.Total
      = some (Float64.fin false 4953959590107546 (-52)) := by decide
  have ho : otherRules impl hugeReceipt (Float64.fin false 4953959590107546 (-52)) = 9 := rfl
  have hl : len (TrimSpace impl "abc") = 3 := rfl
  have hb : rule5Bonus impl ⟨"abc", "4.6e19"⟩ = 9200000000000000000 := by
    simp only [rule5Bonus, hl]
    rfl
  rw [CalculatePoints_eq_sum impl hugeReceipt _ ht, ho]
  simp only [hugeReceipt, List.map_cons, List.map_nil, List.sum_cons, List.sum_nil, hb]
  decide

set_option maxRecDepth 100000 in
theorem blankReceipt_points (impl : GoImpl) :
    len (TrimSpace impl "   ") = 0 ∧ rule5Bonus impl ⟨"   ", "5.00"⟩ = 1
      ∧ CalculatePoints impl blankReceipt = 5 := by
  have ht : ParseFloat blankReceipt.Total
      = some (Float64.fin false 4953959590107546 (-52)) := by decide
  have ho : otherRules impl blankReceipt (Float64.fin false 4953959590107546 (-52)) = 4 := rfl
  have hl : len (TrimSpace impl "   ") = 0 := rfl
  have hb : rule5Bonus impl ⟨"   ", "5.00"⟩ = 1 := by
    simp only [rule5Bonus, hl]
    rfl
  refine ⟨hl, hb, ?_⟩
  rw [CalculatePoints_eq_sum impl blankReceipt _ ht, ho]
  simp only [blankReceipt, List.map_cons, List.map_nil, List.sum_cons, List.sum_nil, hb]
  decide

set_option maxRecDepth 100000 in
theorem pizza_bonus (impl : GoImpl) :
    len (TrimSpace impl "Emils Cheese Pizza") = 18
      ∧ rule5Bonus impl ⟨"Emils Cheese Pizza", "12.25"⟩ = 3 := by
  have hl : len (TrimSpace impl "Emils Cheese Pizza") = 18 := rfl
  refine ⟨hl, ?_⟩
  simp only [rule5Bonus, hl]
  rfl

set_option maxRecDepth 100000 in
theorem targetReceipt_points (impl : GoImpl) : CalculatePoints impl targetReceipt = 63 := by
  have ht : ParseFloat targetReceipt.Total
      = some (Float64.fin false 6825768185233408 (-48)) := by decide
  have ho : otherRules impl targetReceipt (Float64.fin false 6825768185233408 (-48)) = 57 := rfl
  have hl : len (TrimSpace impl "Klarbrunn 12-PK 12 FL OZ") = 24 := rfl
  have hb : rule5Bonus impl ⟨"Klarbrunn 12-PK 12 FL OZ", "12.00"⟩ = 3 := by
    simp only [rule5Bonus, hl]
    rfl
  rw [CalculatePoints_eq_sum impl targetReceipt _ ht, ho]
  simp only [targetReceipt, List.map_cons, List.map_nil, List.sum_cons, List.sum_nil, hb,
    (pizza_bonus impl).2]
  decide

set_option maxRecDepth 100000 in
theorem mm_points (impl : GoImpl) (date time : String)
    (hd : ∀ d, parseDateDay date = some d → d % 2 ≠ 1) (ht : parseTimeHour time ≠ some 14) :
    CalculatePoints impl
        ⟨"M&M Corner Market", date, time, "9.00",
          [⟨"Gatorade", "2.25"⟩, ⟨"Gatorade", "2.25"⟩]⟩ = 94
      ∧ "M&M Corner Market".toList.countP (fun c => IsLetter impl c || IsDigit impl c) = 14 := by
  have h1 : "M&M Corner Market".toList.countP (fun c => IsLetter impl c || IsDigit impl c) = 14 :=
    rfl
  refine ⟨?_, h1⟩
  have h2 : ParseFloat "9.00" = some (Float64.fin false 5066549580791808 (-49)) := by decide
  have h3 : HasSuffix "9.00" ".00" = true := by decide
  have h4 : Float64.eq (Float64.mod (Float64.fin false 5066549580791808 (-49)) (Float64.ofRat 1 4))
      (Float64.ofRat 0 1) = true := by decide
  have h5 : Float64.gt (Float64.fin false 5066549580791808 (-49)) (Float64.ofRat 10 1) = false := by
    decide
  have hl : len (TrimSpace impl "Gatorade") = 8 := rfl
  have hb : rule5Bonus impl ⟨"Gatorade", "2.25"⟩ = 0 := by
    simp only [rule5Bonus, hl]
    rfl
  rw [CalculatePoints_eq_sum impl _ _ h2]
  simp only [otherRules, h1, h3, h4, h5, List.map_cons, List.map_nil, List.sum_cons,
    List.sum_nil, hb, List.length_cons, List.length_nil]
  cases hdate : parseDateDay date with
  | none =>
    cases htime : parseTimeHour time with
    | none => decide
    | some hr =>
      have hne : hr ≠ 14 := fun h => ht (by rw [htime, h])
      simp only [hne, if_false]
      decide
  | some d =>
    have hd' := hd d hdate
    cases htime : parseTimeHour time with
    | none =>
      simp only [hd', if_false]
      decide
    | some hr =>
      have hne : hr ≠ 14 := fun h => ht (by rw [htime, h])
      simp only [hne, hd', if_false]
      decide

/-! ## The validator -/

theorem validateItems_eq_none_iff (items : List Item) :
    validateItems items = none ↔
      ∀ item ∈ items, item.ShortDescription ≠ "" ∧ item.Price ≠ "" := by
  induction items with
  | nil => simp [validateItems]
  | cons a l ih =>
    simp only [validateItems, List.mem_cons, forall_eq_or_imp]
    by_cases h : a.ShortDescription = "" ∨ a.Price = ""
    · simp only [h, if_true]
      constructor
      · intro h'; cases h'
      · rintro ⟨⟨h1, h2⟩, _⟩
        rcases h with h | h
        · exact absurd h h1
        · exact absurd h h2
    · rw [if_neg h, ih]
      push_neg at h
      exact ⟨fun h' => ⟨h, h'⟩, fun h' => h'.2⟩

theorem validateReceipt_eq_none_iff (r : Receipt) :
    validateReceipt r = none ↔
      (r.Retailer ≠ "" ∧ r.PurchaseDate ≠ "" ∧ r.PurchaseTime ≠ "" ∧ r.Total ≠ "" ∧
        1 ≤ r.Items.length ∧
        ∀ item ∈ r.Items, item.ShortDescription ≠ "" ∧ item.Price ≠ "") := by
  unfold validateReceipt
  by_cases h : r.Retailer = "" ∨ r.PurchaseDate = "" ∨ r.PurchaseTime = "" ∨ r.Total = ""
  · rw [if_pos h]
    constructor
    · intro h'; cases h'
    · rintro ⟨h1, h2, h3, h4, _⟩
      rcases h with h | h | h | h
      · exact absurd h h1
      · exact absurd h h2
      · exact absurd h h3
      · exact absurd h h4
  · rw [if_neg h]
    push_neg at h
    by_cases h0 : r.Items.length = 0
    · rw [if_pos h0]
      constructor
      · intro h'; cases h'
      · rintro ⟨_, _, _, _, h5, _⟩
        omega
    · rw [if_neg h0, validateItems_eq_none_iff]
      constructor
      · intro h'
        exact ⟨h.1, h.2.1, h.2.2.1, h.2.2.2, by omega, h'⟩
      · intro h'
        exact h'.2.2.2.2.2

/-- C1: `validateReceipt` returns no error if and only if retailer, purchaseDate, purchaseTime
and total are all non-empty, there is at least one item, and every item has a non-empty
shortDescription and a non-empty price; for every other receipt it returns an error. -/
theorem validateReceipt_accepts_iff (r : Receipt) :
    (validateReceipt r = none ↔
      (r.Retailer ≠ "" ∧ r.PurchaseDate ≠ "" ∧ r.PurchaseTime ≠ "" ∧ r.Total ≠ "" ∧
        1 ≤ r.Items.length ∧
        ∀ item ∈ r.Items, item.ShortDescription ≠ "" ∧ item.Price ≠ "")) ∧
    ((∃ msg, validateReceipt r = some msg) ↔
      ¬ (r.Retailer ≠ "" ∧ r.PurchaseDate ≠ "" ∧ r.PurchaseTime ≠ "" ∧ r.Total ≠ "" ∧
        1 ≤ r.Items.length ∧
        ∀ item ∈ r.Items, item.ShortDescription ≠ "" ∧ item.Price ≠ "")) := by
  refine ⟨validateReceipt_eq_none_iff r, ?_⟩
  rw [← validateReceipt_eq_none_iff r]
  cases validateReceipt r with
  | none => simp
  | some m => simp

/-! ## The scoring engine -/

/-- C2: when the total does not parse as a decimal number, `CalculatePoints` returns exactly
the number of letter-or-digit characters of the retailer name, whatever the items, the
purchase date and the purchase time are: rules 2 to 8 contribute nothing. (The retailer,
as every Go string, has a length that fits an `int`.) -/
theorem CalculatePoints_total_unparsed (impl : GoImpl) (r : Receipt)
    (hlen : len r.Retailer < 2 ^ 63) (h : ParseFloat r.Total = none) :
    CalculatePoints impl r
      = ((r.Retailer.toList.countP (fun c => IsLetter impl c || IsDigit impl c) : Nat) : Int) :=
  CalculatePoints_eq_rule1 impl r hlen h

/-- C2, at the receipt with total `abc` and retailer `Target`: 6 points. -/
theorem CalculatePoints_total_unparsed_witness :
    len abcReceipt.Retailer < 2 ^ 63 ∧ ParseFloat abcReceipt.Total = none
      ∧ ∀ impl, CalculatePoints impl abcReceipt = 6 :=
  ⟨by decide, by decide,
    fun impl => (CalculatePoints_total_unparsed impl abcReceipt (by decide) (by decide)).trans rfl⟩

/-- C3, refuted as stated: the receipt `refundReceipt` passes `validateReceipt` and scores
-16, the item priced `-100.00` contributing `ceil(-20) = -20`. -/
theorem valid_receipt_negative_points :
    validateReceipt refundReceipt = none ∧ ∀ impl, CalculatePoints impl refundReceipt = -16 :=
  ⟨by decide, refundReceipt_points⟩

/-- C3 (amended): for every receipt, valid or not, whose retailer is shorter than 2^32 bytes,
that has fewer than 2^32 items, and in which every item price either fails to parse or
parses to a finite number between 0 and 2^32, `CalculatePoints` returns an integer greater
than or equal to 0. -/
theorem CalculatePoints_nonneg (impl : GoImpl) (r : Receipt)
    (hret : len r.Retailer < 2 ^ 32) (hitems : r.Items.length < 2 ^ 32)
    (hprice : ∀ item ∈ r.Items, ∀ p, ParseFloat item.Price = some p →
      Float64.nonnegAtMost 32 p) :
    0 ≤ CalculatePoints impl r :=
  CalculatePoints_nonneg_of_bounds impl r hret hitems hprice

theorem targetReceipt_prices :
    ∀ item ∈ targetReceipt.Items, ∀ p, ParseFloat item.Price = some p →
      Float64.nonnegAtMost 32 p := by
  intro item hmem p hp
  simp only [targetReceipt, List.mem_cons, List.mem_singleton, List.mem_nil_iff, or_false]
    at hmem
  rcases hmem with h | h
  · subst h
    have h1 : ParseFloat "12.25" = some (Float64.fin false 6896136929411072 (-49)) := by decide
    rw [show (Item.mk "Emils Cheese Pizza" "12.25").Price = "12.25" from rfl, h1] at hp
    cases hp
    simp only [Float64.nonnegAtMost]
    decide
  · subst h
    have h1 : ParseFloat "12.00" = some (Float64.fin false 6755399441055744 (-49)) := by decide
    rw [show (Item.mk "Klarbrunn 12-PK 12 FL OZ" "12.00").Price = "12.00" from rfl, h1] at hp
    cases hp
    simp only [Float64.nonnegAtMost]
    decide

theorem negZero_price_in_range :
    ParseFloat "-0.00" = some (Float64.fin true 0 (-1074))
      ∧ Float64.nonnegAtMost 32 (Float64.fin true 0 (-1074)) :=
  ⟨by decide, rfl⟩

/-- C3 (amended), at the receipt of `TestProcessReceiptHandler_DescLengthMultipleOf3`. -/
theorem CalculatePoints_nonneg_witness :
    len targetReceipt.Retailer < 2 ^ 32 ∧ targetReceipt.Items.length < 2 ^ 32
      ∧ validateReceipt targetReceipt = none
      ∧ ∀ impl, 0 ≤ CalculatePoints impl targetReceipt :=
  ⟨by decide, by decide, by decide,
    fun impl => CalculatePoints_nonneg impl targetReceipt (by decide) (by decide)
      targetReceipt_prices⟩

/-- C4, refuted as stated: the retailer `M&M Corner Market` has 14 letters and digits, not
11, so the receipt (even day, 13:01) scores 14 + 50 + 25 + 5 = 94, not 91. -/
theorem mmReceipt_not_91 :
    (parseDateDay mmReceipt.PurchaseDate = some 20 ∧ parseTimeHour mmReceipt.PurchaseTime = some 13)
      ∧ ∀ impl, CalculatePoints impl mmReceipt = 94 ∧ CalculatePoints impl mmReceipt ≠ 91
        ∧ mmReceipt.Retailer.toList.countP (fun c => IsLetter impl c || IsDigit impl c) = 14 := by
  refine ⟨⟨by decide, by decide⟩, fun impl => ?_⟩
  have h := mm_points impl "2022-03-20" "13:01" (by decide) (by decide)
  have h94 : CalculatePoints impl mmReceipt = 94 := h.1
  refine ⟨h94, ?_, h.2⟩
  rw [h94]
  decide

/-- C4 (amended): for the receipt with retailer `M&M Corner Market`, total `9.00`, exactly two
items `Gatorade` at `2.25`, and a purchase date and time that earn no Rule 7 or Rule 8
points, `CalculatePoints` returns 94, of which Rule 1 contributes 14. -/
theorem mmReceipt_points (impl : GoImpl) (date time : String)
    (hd : ∀ d, parseDateDay date = some d → d % 2 ≠ 1) (ht : parseTimeHour time ≠ some 14) :
    CalculatePoints impl
        ⟨"M&M Corner Market", date, time, "9.00",
          [⟨"Gatorade", "2.25"⟩, ⟨"Gatorade", "2.25"⟩]⟩ = 94
      ∧ "M&M Corner Market".toList.countP (fun c => IsLetter impl c || IsDigit impl c) = 14 :=
  mm_points impl date time hd ht

/-- C4 (amended), at purchaseDate `2022-03-20` and purchaseTime `13:01`. -/
theorem mmReceipt_points_witness :
    (∀ d, parseDateDay "2022-03-20" = some d → d % 2 ≠ 1) ∧ parseTimeHour "13:01" ≠ some 14
      ∧ ∀ impl, CalculatePoints impl mmReceipt = 94 :=
  ⟨by decide, by decide,
    fun impl => (mmReceipt_points impl "2022-03-20" "13:01" (by decide) (by decide)).1⟩

/-! ## The handlers -/

theorem uuidString_ne_empty (rnd : Nat → Nat) : uuidString rnd ≠ "" := by
  intro h
  have h2 := congrArg String.length h
  simp [uuidString, hexByte, String.length] at h2

/-- C5, refuted as stated: for the empty identifier `GetPointsHandler` answers 400, neither
404 when the store has no such key nor 200 when it has one. -/
theorem GetPointsHandler_empty_id :
    (GetPointsHandler true (fun _ => none) (some "")).status = 400
      ∧ (GetPointsHandler true (fun k => if k = "" then some 7 else none) (some "")).status
          = 400 := by
  decide

/-- C5 (amended): for every store state and every non-empty identifier, `GetPointsHandler`
answers 200 with the stored points if the identifier is a key of the store (and the response
is encoded), and 404 if it is not; for an empty or missing identifier it answers 400. -/
theorem GetPointsHandler_lookup (store : Store) (id : String) (h : id ≠ "") :
    (∀ points, store id = some points →
        GetPointsHandler true store (some id) = ⟨200, Payload.points points⟩)
      ∧ (store id = none → ∀ enc, (GetPointsHandler enc store (some id)).status = 404)
      ∧ (∀ enc, (GetPointsHandler enc store (some "")).status = 400)
      ∧ (∀ enc, (GetPointsHandler enc store none).status = 400) := by
  refine ⟨?_, ?_, ?_, ?_⟩
  · intro points hp
    simp [GetPointsHandler, h, hp]
  · intro hn enc
    simp [GetPointsHandler, h, hn]
  · intro enc
    simp [GetPointsHandler]
  · intro enc
    simp [GetPointsHandler]

/-- C5 (amended), at the store and identifier of `TestGetPointsHandler_ExistingID`. -/
theorem GetPointsHandler_lookup_witness :
    "mock-id" ≠ "" ∧
      GetPointsHandler true mockStore (some "mock-id") = ⟨200, Payload.points 109⟩ :=
  ⟨by decide, (GetPointsHandler_lookup mockStore "mock-id" (by decide)).1 109 (by decide)⟩

/-- C6: storage round trip. For every store state and every receipt that passes validation,
`ProcessReceiptHandler` answers 200 with an identifier, and `GetPointsHandler` on that
identifier, in the store that `ProcessReceiptHandler` leaves, answers 200 with exactly
`CalculatePoints(receipt)`. -/
theorem store_round_trip (impl : GoImpl) (rnd : Nat → Nat) (store : Store) (r : Receipt)
    (hv : validateReceipt r = none) :
    (ProcessReceiptHandler impl rnd true store (Body.decoded r)).2
        = ⟨200, Payload.id (uuidString rnd)⟩
      ∧ GetPointsHandler true (ProcessReceiptHandler impl rnd true store (Body.decoded r)).1
          (some (uuidString rnd))
        = ⟨200, Payload.points (CalculatePoints impl r)⟩ := by
  have hne := uuidString_ne_empty rnd
  simp [ProcessReceiptHandler, GetPointsHandler, hv, hne, Store.set]

/-- C6, at the receipt of `TestProcessReceiptHandler_DescLengthMultipleOf3`. -/
theorem store_round_trip_witness :
    validateReceipt targetReceipt = none
      ∧ ∀ impl,
        GetPointsHandler true
            (ProcessReceiptHandler impl zeroRnd true mockStore (Body.decoded targetReceipt)).1
            (some (uuidString zeroRnd))
          = ⟨200, Payload.points (CalculatePoints impl targetReceipt)⟩ :=
  ⟨by decide, fun impl => (store_round_trip impl zeroRnd mockStore targetReceipt (by decide)).2⟩

/-- C7: for every store state and every receipt that fails `validateReceipt`,
`ProcessReceiptHandler` answers 400 and leaves the store exactly as it was; the answer
depends neither on the scoring engine nor on the identifier source. -/
theorem invalid_receipt_rejected (impl : GoImpl) (rnd : Nat → Nat) (enc : Bool) (store : Store)
    (r : Receipt) (hv : validateReceipt r ≠ none) :
    ProcessReceiptHandler impl rnd enc store (Body.decoded r)
      = (store, ⟨400, Payload.text "Invalid receipt payload. Please verify input."⟩) := by
  cases h : validateReceipt r with
  | none => exact absurd h hv
  | some m => simp only [ProcessReceiptHandler, h]

/-- C7, at the receipt of `TestProcessReceiptHandler_EmptyItemDescription`. -/
theorem invalid_receipt_rejected_witness :
    validateReceipt emptyDescReceipt ≠ none
      ∧ ∀ impl,
        ProcessReceiptHandler impl zeroRnd true mockStore (Body.decoded emptyDescReceipt)
          = (mockStore, ⟨400, Payload.text "Invalid receipt payload. Please verify input."⟩) :=
  ⟨by decide,
    fun impl => invalid_receipt_rejected impl zeroRnd true mockStore emptyDescReceipt (by decide)⟩

/-- C8, refuted as stated: the handler writes `receiptStore[id] = points` without looking
whether `id` is already a key. In the store `collidingStore`, which holds the identifier that
the generator returns on the bytes of `zeroRnd`, a successful submission of the receipt of
`TestProcessReceiptHandler_DescLengthMultipleOf3` changes the stored 0 points to 63. -/
theorem stored_record_overwritten :
    validateReceipt targetReceipt = none
      ∧ collidingStore (uuidString zeroRnd) = some 0
      ∧ ∀ impl,
        (ProcessReceiptHandler impl zeroRnd true collidingStore
            (Body.decoded targetReceipt)).2.status = 200
        ∧ (ProcessReceiptHandler impl zeroRnd true collidingStore
            (Body.decoded targetReceipt)).1 (uuidString zeroRnd) = some 63 := by
  refine ⟨by decide, if_pos rfl, fun impl => ⟨rfl, ?_⟩⟩
  have h : (ProcessReceiptHandler impl zeroRnd true collidingStore
      (Body.decoded targetReceipt)).1 (uuidString zeroRnd)
      = some (CalculatePoints impl targetReceipt) := by
    simp [ProcessReceiptHandler, show validateReceipt targetReceipt = none from by decide,
      Store.set]
  rw [h, targetReceipt_points impl]

/-- C8 (amended): stored records are never updated or deleted as long as identifiers do not
repeat. For every store state and every submission of a valid receipt whose generated
identifier is new (the contract of the identifier generator, which the code does not
check), each identifier already in the store maps to the same points afterwards, and the
store gains exactly one identifier, the generated one, mapped to the score of the submitted
receipt; in any case every identifier other than the generated one keeps what it had. -/
theorem store_only_grows (impl : GoImpl) (rnd : Nat → Nat) (enc : Bool) (store : Store)
    (r : Receipt) (hv : validateReceipt r = none) (hfresh : store (uuidString rnd) = none) :
    (∀ k points, store k = some points →
        (ProcessReceiptHandler impl rnd enc store (Body.decoded r)).1 k = some points)
      ∧ (ProcessReceiptHandler impl rnd enc store (Body.decoded r)).1 (uuidString rnd)
          = some (CalculatePoints impl r)
      ∧ (∀ k, k ≠ uuidString rnd →
          (ProcessReceiptHandler impl rnd enc store (Body.decoded r)).1 k = store k) := by
  have hstore : (ProcessReceiptHandler impl rnd enc store (Body.decoded r)).1
      = store.set (uuidString rnd) (CalculatePoints impl r) := by
    unfold ProcessReceiptHandler
    simp only [hv]
    cases enc <;> rfl
  rw [hstore]
  refine ⟨?_, ?_, ?_⟩
  · intro k points hk
    unfold Store.set
    by_cases hki : k = uuidString rnd
    · rw [hki, hfresh] at hk
      cases hk
    · rw [if_neg hki, hk]
  · simp [Store.set]
  · intro k hk
    simp [Store.set, hk]

/-- C8 (amended), at the store of `TestGetPointsHandler_ExistingID`: the entry `mock-id` keeps
its 109 points. -/
theorem store_only_grows_witness :
    validateReceipt targetReceipt = none ∧ mockStore (uuidString zeroRnd) = none
      ∧ ∀ impl,
        (ProcessReceiptHandler impl zeroRnd true mockStore (Body.decoded targetReceipt)).1
          "mock-id" = some 109 :=
  ⟨by decide, by decide,
    fun impl => (store_only_grows impl zeroRnd true mockStore targetReceipt (by decide)
      (by decide)).1 "mock-id" 109 (by decide)⟩

/-! ## Rule 5 -/

/-- C9: Rule 5. For every receipt whose total parses, the score is the sum (in `int`
arithmetic) of the other rules and of one bonus per item; the bonus of an item is
`ceil(price * 0.2)` when the length of its trimmed description is a multiple of 3 and its
price parses, and 0 otherwise; an item whose price fails to parse loses only its own bonus,
the rest of the score being unchanged. The item `Emils Cheese Pizza` (length 18) at `12.25`
contributes 3. -/
theorem rule5_contribution (impl : GoImpl) (r : Receipt) (t : Float64)
    (h : ParseFloat r.Total = some t) :
    CalculatePoints impl r
        = wrap64 (otherRules impl r t + (r.Items.map (rule5Bonus impl)).sum)
      ∧ (∀ item price, len (TrimSpace impl item.ShortDescription) % 3 = 0 →
          ParseFloat item.Price = some price →
          rule5Bonus impl item
            = Float64.toInt impl.floatToIntOOR
                (Float64.ceil (Float64.mul price (Float64.ofRat 1 5))))
      ∧ (∀ item, len (TrimSpace impl item.ShortDescription) % 3 ≠ 0 ∨
          ParseFloat item.Price = none → rule5Bonus impl item = 0)
      ∧ (∀ l1 item l2, r.Items = l1 ++ item :: l2 → ParseFloat item.Price = none →
          CalculatePoints impl r
            = wrap64 (otherRules impl r t + ((l1.map (rule5Bonus impl)).sum
                + (l2.map (rule5Bonus impl)).sum)))
      ∧ len (TrimSpace impl "Emils Cheese Pizza") = 18
      ∧ rule5Bonus impl ⟨"Emils Cheese Pizza", "12.25"⟩ = 3 := by
  have hzero : ∀ item, len (TrimSpace impl item.ShortDescription) % 3 ≠ 0 ∨
      ParseFloat item.Price = none → rule5Bonus impl item = 0 := by
    intro item hc
    unfold rule5Bonus
    rcases hc with hc | hc
    · rw [if_neg hc]
    · rw [hc]
      simp
  refine ⟨CalculatePoints_eq_sum impl r t h, ?_, hzero, ?_, pizza_bonus impl⟩
  · intro item price hl hp
    unfold rule5Bonus
    rw [if_pos hl, hp]
  · intro l1 item l2 hitems hp
    rw [CalculatePoints_eq_sum impl r t h, hitems, List.map_append, List.sum_append,
      List.map_cons, List.sum_cons, hzero item (Or.inr hp), Int.zero_add]

/-- C9, at the receipt of `TestProcessReceiptHandler_DescLengthMultipleOf3`: 57 points of
the other rules, 3 for each of the two items. -/
theorem rule5_contribution_witness :
    ParseFloat targetReceipt.Total = some (Float64.fin false 6825768185233408 (-48))
      ∧ ∀ impl, CalculatePoints impl targetReceipt
          = wrap64 (otherRules impl targetReceipt (Float64.fin false 6825768185233408 (-48))
              + (targetReceipt.Items.map (rule5Bonus impl)).sum) :=
  ⟨by decide, fun impl => (rule5_contribution impl targetReceipt _ (by decide)).1⟩

/-- C10, refuted as stated: the receipt `blankReceipt` passes `validateReceipt` although the
description of its item, three spaces, has length 0 once trimmed; Rule 5 awards that item
`ceil(5.00 * 0.2) = 1` point, for a score of 5. -/
theorem blank_description_validated :
    validateReceipt blankReceipt = none
      ∧ ∀ impl, len (TrimSpace impl "   ") = 0 ∧ rule5Bonus impl ⟨"   ", "5.00"⟩ = 1
          ∧ CalculatePoints impl blankReceipt = 5 :=
  ⟨by decide, blankReceipt_points⟩

/-- C10 (amended): validation excludes the empty description only. For every receipt that
passes `validateReceipt`, every item has a shortDescription of length greater than 0 before
trimming; its length after trimming is 0 exactly when it consists of white space only, and
then Rule 5 applies to the item, 0 being a multiple of 3. -/
theorem valid_description_length (impl : GoImpl) (r : Receipt)
    (hv : validateReceipt r = none) :
    ∀ item ∈ r.Items,
      0 < len item.ShortDescription
        ∧ (len (TrimSpace impl item.ShortDescription) = 0
            ↔ ∀ c ∈ item.ShortDescription.toList, IsSpace impl c = true)
        ∧ (len (TrimSpace impl item.ShortDescription) = 0 →
            ∀ price, ParseFloat item.Price = some price →
              rule5Bonus impl item
                = Float64.toInt impl.floatToIntOOR
                    (Float64.ceil (Float64.mul price (Float64.ofRat 1 5)))) := by
  intro item hmem
  have hne := ((validateReceipt_eq_none_iff r).mp hv).2.2.2.2.2 item hmem
  refine ⟨len_pos_of_ne_empty _ hne.1, len_TrimSpace_eq_zero_iff impl _, ?_⟩
  intro h0 price hp
  unfold rule5Bonus
  rw [if_pos (by rw [h0]), hp]

/-- C10 (amended), at the receipt whose item is described by three spaces. -/
theorem valid_description_length_witness :
    validateReceipt blankReceipt = none
      ∧ ∀ impl : GoImpl, ∀ item ∈ blankReceipt.Items,
          0 < len item.ShortDescription
            ∧ (len (TrimSpace impl item.ShortDescription) = 0
                ↔ ∀ c ∈ item.ShortDescription.toList, IsSpace impl c = true) :=
  ⟨by decide,
    fun impl item hmem =>
      ⟨(valid_description_length impl blankReceipt (by decide) item hmem).1,
        (valid_description_length impl blankReceipt (by decide) item hmem).2.1⟩⟩

/-! ## Comparing the scores of two receipts -/

theorem wrap64_range (z : Int) : -(2 ^ 63 : Int) ≤ wrap64 z ∧ wrap64 z < 2 ^ 63 := by
  unfold wrap64; omega

/-- The score is a 64-bit `int`. -/
theorem CalculatePoints_range (impl : GoImpl) (r : Receipt) :
    -(2 ^ 63 : Int) ≤ CalculatePoints impl r ∧ CalculatePoints impl r < 2 ^ 63 := by
  cases ht : ParseFloat r.Total with
  | none =>
    have h : CalculatePoints impl r = r.Retailer.toList.foldl (retailerStep impl) 0 := by
      unfold CalculatePoints
      simp only [ht]
    rw [h, rule1_eq_wrap]
    exact wrap64_range _
  | some t =>
    rw [CalculatePoints_eq_sum impl r t ht]
    exact wrap64_range _

/-- Two receipts with parsed totals whose rule points differ by `k` have scores that differ
by `k` in `int` arithmetic, and as integers when the larger one fits. -/
theorem CalculatePoints_add (impl : GoImpl) (r1 r2 : Receipt) (t1 t2 : Float64) (k : Int)
    (h1 : ParseFloat r1.Total = some t1) (h2 : ParseFloat r2.Total = some t2)
    (h : otherRules impl r1 t1 + (r1.Items.map (rule5Bonus impl)).sum
      = otherRules impl r2 t2 + (r2.Items.map (rule5Bonus impl)).sum + k) :
    CalculatePoints impl r1 = wrap64 (CalculatePoints impl r2 + k) := by
  rw [CalculatePoints_eq_sum impl r1 t1 h1, CalculatePoints_eq_sum impl r2 t2 h2, h,
    wrap64_add_wrap64]

theorem CalculatePoints_add_exact (impl : GoImpl) (r1 r2 : Receipt) (k : Int) (hk : 0 ≤ k)
    (h : CalculatePoints impl r1 = wrap64 (CalculatePoints impl r2 + k))
    (hfit : CalculatePoints impl r2 + k < 2 ^ 63) :
    CalculatePoints impl r1 = CalculatePoints impl r2 + k := by
  rw [h]
  have hr := (CalculatePoints_range impl r2).1
  exact wrap64_of_range _ (by omega) hfit

theorem CalculatePoints_congr (impl : GoImpl) (r1 r2 : Receipt) (t1 t2 : Float64)
    (h1 : ParseFloat r1.Total = some t1) (h2 : ParseFloat r2.Total = some t2)
    (h : otherRules impl r1 t1 + (r1.Items.map (rule5Bonus impl)).sum
      = otherRules impl r2 t2 + (r2.Items.map (rule5Bonus impl)).sum) :
    CalculatePoints impl r1 = CalculatePoints impl r2 := by
  rw [CalculatePoints_eq_sum impl r1 t1 h1, CalculatePoints_eq_sum impl r2 t2 h2, h]

/-! ## Rule 8 -/

theorem time_points_14 (impl : GoImpl) (r : Receipt) (t : Float64) (time14 timeOther : String)
    (ht : ParseFloat r.Total = some t) (h14 : parseTimeHour time14 = some 14)
    (hO : parseTimeHour timeOther ≠ some 14) :
    CalculatePoints impl { r with PurchaseTime := time14 }
      = wrap64 (CalculatePoints impl { r with PurchaseTime := timeOther } + 10) := by
  apply CalculatePoints_add impl { r with PurchaseTime := time14 }
    { r with PurchaseTime := timeOther } t t 10 ht ht
  simp only [otherRules, h14]
  cases hO' : parseTimeHour timeOther with
  | none => simp only [if_true]; ring
  | some hr =>
    have hne : hr ≠ 14 := fun h => hO (by rw [hO', h])
    simp only [hne, if_true, if_false]
    ring

theorem time_points_other (impl : GoImpl) (r : Receipt) (t : Float64) (time1 time2 : String)
    (ht : ParseFloat r.Total = some t) (h1 : parseTimeHour time1 ≠ some 14)
    (h2 : parseTimeHour time2 ≠ some 14) :
    CalculatePoints impl { r with PurchaseTime := time1 }
      = CalculatePoints impl { r with PurchaseTime := time2 } := by
  apply CalculatePoints_congr impl { r with PurchaseTime := time1 }
    { r with PurchaseTime := time2 } t t ht ht
  simp only [otherRules]
  cases h1' : parseTimeHour time1 with
  | none =>
    cases h2' : parseTimeHour time2 with
    | none => rfl
    | some b =>
      have hb : b ≠ 14 := fun h => h2 (by rw [h2', h])
      simp only [hb, if_false]
  | some a =>
    have ha : a ≠ 14 := fun h => h1 (by rw [h1', h])
    cases h2' : parseTimeHour time2 with
    | none => simp only [ha, if_false]
    | some b =>
      have hb : b ≠ 14 := fun h => h2 (by rw [h2', h])
      simp only [ha, hb, if_false]

/-! ## Rules 7, 6 and 4, and the order of the items -/

theorem date_points_odd (impl : GoImpl) (r : Receipt) (t : Float64) (dateOdd dateOther : String)
    (j : Nat) (ht : ParseFloat r.Total = some t) (hodd : parseDateDay dateOdd = some j)
    (hj : j % 2 = 1) (hO : ∀ d, parseDateDay dateOther = some d → d % 2 ≠ 1) :
    CalculatePoints impl { r with PurchaseDate := dateOdd }
      = wrap64 (CalculatePoints impl { r with PurchaseDate := dateOther } + 6) := by
  apply CalculatePoints_add impl { r with PurchaseDate := dateOdd }
    { r with PurchaseDate := dateOther } t t 6 ht ht
  simp only [otherRules, hodd, hj, if_true]
  cases hO' : parseDateDay dateOther with
  | none => ring
  | some d =>
    have hd := hO d hO'
    simp only [hd, if_false]
    ring

theorem date_points_other (impl : GoImpl) (r : Receipt) (t : Float64) (date1 date2 : String)
    (ht : ParseFloat r.Total = some t) (h1 : ∀ d, parseDateDay date1 = some d → d % 2 ≠ 1)
    (h2 : ∀ d, parseDateDay date2 = some d → d % 2 ≠ 1) :
    CalculatePoints impl { r with PurchaseDate := date1 }
      = CalculatePoints impl { r with PurchaseDate := date2 } := by
  apply CalculatePoints_congr impl { r with PurchaseDate := date1 }
    { r with PurchaseDate := date2 } t t ht ht
  simp only [otherRules]
  cases h1' : parseDateDay date1 with
  | none =>
    cases h2' : parseDateDay date2 with
    | none => rfl
    | some b => simp only [h2 b h2', if_false]
  | some a =>
    cases h2' : parseDateDay date2 with
    | none => simp only [h1 a h1', if_false]
    | some b => simp only [h1 a h1', h2 b h2', if_false]

set_option maxRecDepth 100000 in
theorem total_facts :
    (ParseFloat "9.00" = some (Float64.fin false 5066549580791808 (-49))
      ∧ ParseFloat "10.00" = some (Float64.fin false 5629499534213120 (-49))
      ∧ ParseFloat "11.00" = some (Float64.fin false 6192449487634432 (-49)))
    ∧ (HasSuffix "9.00" ".00" = true ∧ HasSuffix "10.00" ".00" = true
      ∧ HasSuffix "11.00" ".00" = true)
    ∧ (Float64.eq (Float64.mod (Float64.fin false 5066549580791808 (-49)) (Float64.ofRat 1 4))
          (Float64.ofRat 0 1) = true
      ∧ Float64.eq (Float64.mod (Float64.fin false 5629499534213120 (-49)) (Float64.ofRat 1 4))
          (Float64.ofRat 0 1) = true
      ∧ Float64.eq (Float64.mod (Float64.fin false 6192449487634432 (-49)) (Float64.ofRat 1 4))
          (Float64.ofRat 0 1) = true)
    ∧ (Float64.gt (Float64.fin false 5066549580791808 (-49)) (Float64.ofRat 10 1) = false
      ∧ Float64.gt (Float64.fin false 5629499534213120 (-49)) (Float64.ofRat 10 1) = false
      ∧ Float64.gt (Float64.fin false 6192449487634432 (-49)) (Float64.ofRat 10 1) = true) := by
  decide

theorem total_points_10_9 (impl : GoImpl) (r : Receipt) :
    CalculatePoints impl { r with Total := "10.00" }
      = CalculatePoints impl { r with Total := "9.00" } := by
  obtain ⟨⟨p9, p10, _⟩, ⟨s9, s10, _⟩, ⟨m9, m10, _⟩, ⟨g9, g10, _⟩⟩ := total_facts
  apply CalculatePoints_congr impl { r with Total := "10.00" } { r with Total := "9.00" } _ _
    p10 p9
  simp only [otherRules, s9, s10, m9, m10, g9, g10]

theorem total_points_11_10 (impl : GoImpl) (r : Receipt) :
    CalculatePoints impl { r with Total := "11.00" }
      = wrap64 (CalculatePoints impl { r with Total := "10.00" } + 5) := by
  obtain ⟨⟨_, p10, p11⟩, ⟨_, s10, s11⟩, ⟨_, m10, m11⟩, ⟨_, g10, g11⟩⟩ := total_facts
  apply CalculatePoints_add impl { r with Total := "11.00" } { r with Total := "10.00" } _ _ 5
    p11 p10
  simp only [otherRules, s10, s11, m10, m11, g10, g11, if_true]
  simp only [Bool.false_eq_true, if_false]
  cases parseDateDay r.PurchaseDate <;> cases parseTimeHour r.PurchaseTime <;> simp only <;> ring

theorem items_points_two (impl : GoImpl) (r : Receipt) (t : Float64) (a b : Item)
    (ht : ParseFloat r.Total = some t) (ha : rule5Bonus impl a = 0)
    (hb : rule5Bonus impl b = 0) :
    CalculatePoints impl { r with Items := r.Items ++ [a, b] }
      = wrap64 (CalculatePoints impl r + 5) := by
  apply CalculatePoints_add impl { r with Items := r.Items ++ [a, b] } r t t 5 ht ht
  have hlen : (r.Items ++ [a, b]).length / 2 = r.Items.length / 2 + 1 := by
    simp only [List.length_append, List.length_cons, List.length_nil]
    omega
  simp only [otherRules, hlen, List.map_append, List.sum_append, List.map_cons, List.map_nil,
    List.sum_cons, List.sum_nil, ha, hb]
  push_cast
  cases parseDateDay r.PurchaseDate <;> cases parseTimeHour r.PurchaseTime <;> simp only <;> ring

theorem items_points_one (impl : GoImpl) (r : Receipt) (t : Float64) (a : Item)
    (ht : ParseFloat r.Total = some t) (ha : rule5Bonus impl a = 0)
    (heven : r.Items.length % 2 = 0) :
    CalculatePoints impl { r with Items := r.Items ++ [a] } = CalculatePoints impl r := by
  apply CalculatePoints_congr impl { r with Items := r.Items ++ [a] } r t t ht ht
  have hlen : (r.Items ++ [a]).length / 2 = r.Items.length / 2 := by
    simp only [List.length_append, List.length_cons, List.length_nil]
    omega
  simp only [otherRules, hlen, List.map_append, List.sum_append, List.map_cons, List.map_nil,
    List.sum_cons, List.sum_nil, ha]
  ring

theorem items_points_perm (impl : GoImpl) (r : Receipt) (items : List Item)
    (h : r.Items.Perm items) :
    CalculatePoints impl { r with Items := items } = CalculatePoints impl r := by
  cases ht : ParseFloat r.Total with
  | none =>
    unfold CalculatePoints
    simp only [ht]
  | some t =>
    apply CalculatePoints_congr impl { r with Items := items } r t t ht ht
    simp only [otherRules, h.length_eq, (h.map (rule5Bonus impl)).sum_eq]

theorem char_eq_of_toNat (a b : Char) (h : a.toNat = b.toNat) : a = b := by
  rw [← Char.ofNat_toNat a, ← Char.ofNat_toNat b, h]

theorem getnum_some (l : List Char) (fixed : Bool) (n : Nat) (rest : List Char)
    (h : getnum l fixed = some (n, rest)) :
    (∃ a b, l = a :: b :: rest ∧ isDecDigit a = true ∧ isDecDigit b = true
        ∧ n = (a.toNat - '0'.toNat) * 10 + (b.toNat - '0'.toNat))
      ∨ (fixed = false ∧ ∃ a, l = a :: rest ∧ isDecDigit a = true ∧ n = a.toNat - '0'.toNat) := by
  cases l with
  | nil => simp [getnum] at h
  | cons a t =>
    cases ha : isDecDigit a with
    | false => simp [getnum, ha] at h
    | true =>
      cases t with
      | nil =>
        cases fixed with
        | true => simp [getnum, ha] at h
        | false =>
          simp only [getnum, ha, Bool.not_true, Bool.false_eq_true, if_false, Option.some.injEq,
            Prod.mk.injEq] at h
          right
          exact ⟨rfl, a, by rw [← h.2], ha, h.1.symm⟩
      | cons b t2 =>
        cases hb : isDecDigit b with
        | true =>
          simp only [getnum, ha, hb, Bool.not_true, Bool.false_eq_true, if_false, if_true,
            Option.some.injEq, Prod.mk.injEq] at h
          left
          exact ⟨a, b, by rw [← h.2], ha, hb, h.1.symm⟩
        | false =>
          cases fixed with
          | true => simp [getnum, ha, hb] at h
          | false =>
            simp only [getnum, ha, hb, Bool.not_true, Bool.false_eq_true, if_false,
              Option.some.injEq, Prod.mk.injEq] at h
            right
            exact ⟨rfl, a, by rw [← h.2], ha, h.1.symm⟩

theorem skip_some (v : List Char) (lit : Char) (rest : List Char)
    (h : skip v lit = some rest) : v = lit :: rest := by
  cases v with
  | nil => simp [skip] at h
  | cons c t =>
    by_cases hc : c = lit
    · simp only [skip, hc, if_true, Option.some.injEq] at h
      rw [hc, h]
    · simp [skip, hc] at h

/-- The purchase times that earn Rule 8: `14:MM` with a minute `MM` of two digits below 60. -/
theorem parseTimeHour_eq_14_iff (s : String) :
    parseTimeHour s = some 14 ↔
      ∃ a b, s.toList = ['1', '4', ':', a, b] ∧ isDecDigit a = true ∧ isDecDigit b = true
        ∧ (a.toNat - '0'.toNat) * 10 + (b.toNat - '0'.toNat) < 60 := by
  have e0 : '0'.toNat = 48 := rfl
  have e9 : '9'.toNat = 57 := rfl
  constructor
  · intro h
    unfold parseTimeHour at h
    cases h1 : getnum s.toList false with
    | none => rw [h1] at h; cases h
    | some x1 =>
      obtain ⟨hour, v1⟩ := x1
      rw [h1] at h
      simp only at h
      by_cases h24 : 24 ≤ hour
      · rw [if_pos h24] at h; cases h
      · rw [if_neg h24] at h
        cases h2 : skip v1 ':' with
        | none => rw [h2] at h; cases h
        | some v2 =>
          rw [h2] at h
          simp only at h
          cases h3 : getnum v2 true with
          | none => rw [h3] at h; cases h
          | some x3 =>
            obtain ⟨mn, v3⟩ := x3
            rw [h3] at h
            simp only at h
            by_cases h60 : 60 ≤ mn
            · rw [if_pos h60] at h; cases h
            · rw [if_neg h60] at h
              by_cases hv3 : v3 ≠ []
              · rw [if_pos hv3] at h; cases h
              · rw [if_neg hv3] at h
                have hv3' : v3 = [] := by simpa using hv3
                have hh : hour = 14 := by injection h
                subst hv3' hh
                have hv1 := skip_some _ _ _ h2
                rcases getnum_some _ _ _ _ h3 with ⟨a, b, hl, ha, hb, hn⟩ | ⟨hf, _⟩
                · rcases getnum_some _ _ _ _ h1 with
                    ⟨c, d, hl1, hc, hd, hn1⟩ | ⟨_, c, hl1, hc, hn1⟩
                  · refine ⟨a, b, ?_, ha, hb, by omega⟩
                    simp only [isDecDigit, Bool.and_eq_true, decide_eq_true_eq] at hc hd
                    have hc' : c = '1' := char_eq_of_toNat _ _ (by
                      have : '1'.toNat = 49 := rfl
                      omega)
                    have hd' : d = '4' := char_eq_of_toNat _ _ (by
                      have : '4'.toNat = 52 := rfl
                      omega)
                    rw [hl1, hv1, hl, hc', hd']
                  · simp only [isDecDigit, Bool.and_eq_true, decide_eq_true_eq] at hc
                    omega
                · cases hf
  · rintro ⟨a, b, hl, ha, hb, hlt⟩
    have h1 : getnum s.toList false = some (14, [':', a, b]) := by
      rw [hl]
      rfl
    have h3 : getnum [a, b] true
        = some ((a.toNat - '0'.toNat) * 10 + (b.toNat - '0'.toNat), []) := by
      simp only [getnum, ha, hb, Bool.not_true, Bool.false_eq_true, if_false, if_true]
    have h2 : skip [':', a, b] ':' = some [a, b] := rfl
    have h60 : ¬ (60 ≤ (a.toNat - '0'.toNat) * 10 + (b.toNat - '0'.toNat)) := by omega
    unfold parseTimeHour
    rw [h1]
    simp only
    rw [if_neg (by decide), h2]
    simp only
    rw [h3]
    simp only
    rw [if_neg h60]
    simp

/-! ## Rule 8: the purchase time -/

/-! ## Receipts at the edge of the `int` range -/

set_option maxRecDepth 100000 in
theorem big_item_bonus (impl : GoImpl) :
    rule5Bonus impl ⟨"abc", "23058430092136939520"⟩ = 4611686018427387904
      ∧ rule5Bonus impl ⟨"abc", "23058430092136935424"⟩ = 4611686018427387392
      ∧ rule5Bonus impl ⟨"abc", "2509"⟩ = 502
      ∧ rule5Bonus impl ⟨"abc", "2134"⟩ = 427 := by
  have hl : len (TrimSpace impl "abc") = 3 := rfl
  simp only [rule5Bonus, hl]
  exact ⟨rfl, rfl, rfl, rfl⟩

set_option maxRecDepth 100000 in
theorem bigReceipt_total :
    ParseFloat bigReceipt.Total = some (Float64.fin false 4953959590107546 (-52)) := by
  decide

set_option maxRecDepth 100000 in
theorem bigReceipt_points (impl : GoImpl) :
    CalculatePoints impl bigReceipt = 9223372036854775807 := by
  have ho : otherRules impl bigReceipt (Float64.fin false 4953959590107546 (-52)) = 9 := rfl
  obtain ⟨b1, b2, b3, _⟩ := big_item_bonus impl
  rw [CalculatePoints_eq_sum impl bigReceipt _ bigReceipt_total, ho]
  simp only [bigReceipt, List.map_cons, List.map_nil, List.sum_cons, List.sum_nil, b1, b2, b3]
  decide

set_option maxRecDepth 100000 in
theorem bigTotalReceipt_points (impl : GoImpl) :
    CalculatePoints impl bigTotalReceipt = 9223372036854775807 := by
  have ho : otherRules impl bigTotalReceipt (Float64.fin false 5629499534213120 (-49)) = 84 :=
    rfl
  obtain ⟨b1, b2, _, b4⟩ := big_item_bonus impl
  rw [CalculatePoints_eq_sum impl bigTotalReceipt _ total_facts.1.2.1, ho]
  simp only [bigTotalReceipt, List.map_cons, List.map_nil, List.sum_cons, List.sum_nil, b1, b2,
    b4]
  decide

theorem bigReceipt_points_14 (impl : GoImpl) :
    CalculatePoints impl { bigReceipt with PurchaseTime := "14:01" }
      = -9223372036854775799 := by
  have h := time_points_14 impl bigReceipt _ "14:01" "13:01" bigReceipt_total (by decide)
    (by decide)
  have e : ({ bigReceipt with PurchaseTime := "13:01" } : Receipt) = bigReceipt := rfl
  rw [e, bigReceipt_points] at h
  rw [h]
  decide

theorem bigTotalReceipt_points_11 (impl : GoImpl) :
    CalculatePoints impl { bigTotalReceipt with Total := "11.00" }
      = -9223372036854775804 := by
  have h := total_points_11_10 impl bigTotalReceipt
  have e : ({ bigTotalReceipt with Total := "10.00" } : Receipt) = bigTotalReceipt := rfl
  rw [e, bigTotalReceipt_points] at h
  rw [h]
  decide

/-- C11, refuted as stated: the valid receipt `bigReceipt`, bought at 13:01, scores
2^63 - 1, the largest `int`; the same receipt bought at 14:01 scores -9223372036854775799,
the sum having wrapped around, and not 10 more. -/
theorem afternoon_bonus_wraps :
    validateReceipt bigReceipt = none
      ∧ ParseFloat bigReceipt.Total = some (Float64.fin false 4953959590107546 (-52))
      ∧ parseTimeHour bigReceipt.PurchaseTime = some 13 ∧ parseTimeHour "14:01" = some 14
      ∧ ∀ impl, CalculatePoints impl bigReceipt = 9223372036854775807
        ∧ CalculatePoints impl { bigReceipt with PurchaseTime := "14:01" }
          = -9223372036854775799 :=
  ⟨by decide, bigReceipt_total, by decide, by decide,
    fun impl => ⟨bigReceipt_points impl, bigReceipt_points_14 impl⟩⟩

/-- C11 (amended): Rule 8. For every receipt whose total parses, a purchaseTime that parses
as 24-hour `HH:MM` with hour 14 (that is `14:MM`, `MM` below 60) earns 10 points more, in
wrapping `int` arithmetic, than the same receipt with any purchaseTime of another hour or
that does not parse, and exactly 10 more as integers whenever the lower score plus 10 is
below 2^63; all the purchase times of the second kind, unparseable ones included, give the
same score. -/
theorem rule8_afternoon_bonus (impl : GoImpl) (r : Receipt) (t : Float64)
    (time14 timeOther : String) (ht : ParseFloat r.Total = some t)
    (h14 : parseTimeHour time14 = some 14) (hO : parseTimeHour timeOther ≠ some 14) :
    CalculatePoints impl { r with PurchaseTime := time14 }
        = wrap64 (CalculatePoints impl { r with PurchaseTime := timeOther } + 10)
      ∧ (CalculatePoints impl { r with PurchaseTime := timeOther } + 10 < 2 ^ 63 →
          CalculatePoints impl { r with PurchaseTime := time14 }
            = CalculatePoints impl { r with PurchaseTime := timeOther } + 10)
      ∧ (∀ time, parseTimeHour time ≠ some 14 →
          CalculatePoints impl { r with PurchaseTime := time }
            = CalculatePoints impl { r with PurchaseTime := timeOther })
      ∧ (∃ a b, time14.toList = ['1', '4', ':', a, b] ∧ isDecDigit a = true
          ∧ isDecDigit b = true ∧ (a.toNat - '0'.toNat) * 10 + (b.toNat - '0'.toNat) < 60) := by
  have h := time_points_14 impl r t time14 timeOther ht h14 hO
  exact ⟨h, fun hfit => CalculatePoints_add_exact impl _ _ 10 (by norm_num) h hfit,
    fun time htime => time_points_other impl r t time timeOther ht htime hO,
    (parseTimeHour_eq_14_iff time14).mp h14⟩

set_option maxRecDepth 100000 in
theorem targetReceipt_points_13 (impl : GoImpl) :
    CalculatePoints impl { targetReceipt with PurchaseTime := "13:01" } = 53 := by
  have ht : ParseFloat ({ targetReceipt with PurchaseTime := "13:01" } : Receipt).Total
      = some (Float64.fin false 6825768185233408 (-48)) := by decide
  have ho : otherRules impl { targetReceipt with PurchaseTime := "13:01" }
      (Float64.fin false 6825768185233408 (-48)) = 47 := rfl
  have hl : len (TrimSpace impl "Klarbrunn 12-PK 12 FL OZ") = 24 := rfl
  have hb : rule5Bonus impl ⟨"Klarbrunn 12-PK 12 FL OZ", "12.00"⟩ = 3 := by
    simp only [rule5Bonus, hl]
    rfl
  rw [CalculatePoints_eq_sum impl _ _ ht, ho]
  simp only [targetReceipt, List.map_cons, List.map_nil, List.sum_cons, List.sum_nil, hb,
    (pizza_bonus impl).2]
  decide

/-- C11 (amended), at the receipt of `TestProcessReceiptHandler_DescLengthMultipleOf3`: bought
at 13:01 or at a purchase time that does not parse it scores 53, and bought at 14:01 it
scores exactly 10 more. -/
theorem rule8_afternoon_bonus_witness :
    ParseFloat targetReceipt.Total = some (Float64.fin false 6825768185233408 (-48))
      ∧ parseTimeHour "14:01" = some 14 ∧ parseTimeHour "13:01" ≠ some 14
      ∧ parseTimeHour "2 pm" = none
      ∧ ∀ impl, CalculatePoints impl { targetReceipt with PurchaseTime := "13:01" } = 53
        ∧ CalculatePoints impl { targetReceipt with PurchaseTime := "14:01" }
          = CalculatePoints impl { targetReceipt with PurchaseTime := "13:01" } + 10
        ∧ CalculatePoints impl { targetReceipt with PurchaseTime := "2 pm" }
          = CalculatePoints impl { targetReceipt with PurchaseTime := "13:01" } :=
  ⟨by decide, by decide, by decide, by decide, fun impl =>
    ⟨targetReceipt_points_13 impl,
      (rule8_afternoon_bonus impl targetReceipt
        (Float64.fin false 6825768185233408 (-48)) "14:01" "13:01" (by decide) (by decide)
        (by decide)).2.1 (by rw [targetReceipt_points_13]; decide),
      (rule8_afternoon_bonus impl targetReceipt
        (Float64.fin false 6825768185233408 (-48)) "14:01" "13:01" (by decide) (by decide)
        (by decide)).2.2.1 "2 pm" (by decide)⟩⟩

/-- C12, the code at a purchase time between 3:00PM and 4:00PM: the receipt of C4 bought at
15:30 scores 94, without the 10 points that it earns at 14:30 (104). The comment of Rule 8
announces the bonus between 2:00PM and 4:00PM; the code tests `t.Hour() == 14`. -/
theorem afternoon_1530_no_bonus :
    (parseTimeHour "15:30" = some 15 ∧ parseTimeHour "14:30" = some 14)
      ∧ ∀ impl,
        CalculatePoints impl
            ⟨"M&M Corner Market", "2022-03-20", "15:30", "9.00",
              [⟨"Gatorade", "2.25"⟩, ⟨"Gatorade", "2.25"⟩]⟩ = 94
        ∧ CalculatePoints impl
            ⟨"M&M Corner Market", "2022-03-20", "14:30", "9.00",
              [⟨"Gatorade", "2.25"⟩, ⟨"Gatorade", "2.25"⟩]⟩ = 104 := by
  refine ⟨⟨by decide, by decide⟩, fun impl => ?_⟩
  have h15 := (mm_points impl "2022-03-20" "15:30" (by decide) (by decide)).1
  have h14 := time_points_14 impl
    ⟨"M&M Corner Market", "2022-03-20", "15:30", "9.00",
      [⟨"Gatorade", "2.25"⟩, ⟨"Gatorade", "2.25"⟩]⟩
    (Float64.fin false 5066549580791808 (-49)) "14:30" "15:30" total_facts.1.1 (by decide)
    (by decide)
  refine ⟨h15, ?_⟩
  have h14' : CalculatePoints impl
      ⟨"M&M Corner Market", "2022-03-20", "14:30", "9.00",
        [⟨"Gatorade", "2.25"⟩, ⟨"Gatorade", "2.25"⟩]⟩
      = wrap64 (CalculatePoints impl
          ⟨"M&M Corner Market", "2022-03-20", "15:30", "9.00",
            [⟨"Gatorade", "2.25"⟩, ⟨"Gatorade", "2.25"⟩]⟩ + 10) := h14
  rw [h14', h15]
  decide

/-! ## Rule 7: the purchase date -/

/-- C13: Rule 7. For every receipt whose total parses, a purchaseDate that fails to parse as
a `YYYY-MM-DD` calendar date (as `2022-02-30` and `not-a-date` do) gives the same score as
the same receipt with a valid date of even day, all other rules being applied; a valid date
of odd day earns 6 points more, in `int` arithmetic, and exactly 6 more as integers whenever
that sum fits an `int`. -/
theorem rule7_odd_day_bonus (impl : GoImpl) (r : Receipt) (t : Float64)
    (dateBad dateEven : String) (k : Nat) (ht : ParseFloat r.Total = some t)
    (hbad : parseDateDay dateBad = none) (heven : parseDateDay dateEven = some k)
    (hk : k % 2 = 0) :
    CalculatePoints impl { r with PurchaseDate := dateBad }
        = CalculatePoints impl { r with PurchaseDate := dateEven }
      ∧ (∀ dateOdd j, parseDateDay dateOdd = some j → j % 2 = 1 →
          CalculatePoints impl { r with PurchaseDate := dateOdd }
              = wrap64 (CalculatePoints impl { r with PurchaseDate := dateEven } + 6)
            ∧ CalculatePoints impl { r with PurchaseDate := dateOdd }
              = wrap64 (CalculatePoints impl { r with PurchaseDate := dateBad } + 6)
            ∧ (CalculatePoints impl { r with PurchaseDate := dateEven } + 6 < 2 ^ 63 →
              CalculatePoints impl { r with PurchaseDate := dateOdd }
                = CalculatePoints impl { r with PurchaseDate := dateEven } + 6))
      ∧ parseDateDay "2022-02-30" = none ∧ parseDateDay "not-a-date" = none := by
  have hb : ∀ d, parseDateDay dateBad = some d → d % 2 ≠ 1 := by
    intro d hd
    rw [hbad] at hd
    cases hd
  have he : ∀ d, parseDateDay dateEven = some d → d % 2 ≠ 1 := by
    intro d hd
    rw [heven] at hd
    cases hd
    omega
  refine ⟨date_points_other impl r t dateBad dateEven ht hb he, ?_, by decide, by decide⟩
  intro dateOdd j hodd hj
  have h := date_points_odd impl r t dateOdd dateEven j ht hodd hj he
  exact ⟨h, date_points_odd impl r t dateOdd dateBad j ht hodd hj hb,
    fun hfit => CalculatePoints_add_exact impl _ _ 6 (by norm_num) h hfit⟩

/-- C13, at the receipt of `TestProcessReceiptHandler_DescLengthMultipleOf3` with the dates
`2022-02-30` (no such day) and `2022-03-20`. -/
theorem rule7_odd_day_bonus_witness :
    ParseFloat targetReceipt.Total = some (Float64.fin false 6825768185233408 (-48))
      ∧ parseDateDay "2022-02-30" = none ∧ parseDateDay "2022-03-20" = some 20
      ∧ ∀ impl, CalculatePoints impl { targetReceipt with PurchaseDate := "2022-02-30" }
          = CalculatePoints impl { targetReceipt with PurchaseDate := "2022-03-20" } :=
  ⟨by decide, by decide, by decide, fun impl =>
    (rule7_odd_day_bonus impl targetReceipt
      (Float64.fin false 6825768185233408 (-48)) "2022-02-30" "2022-03-20" 20 (by decide)
      (by decide) (by decide) (by decide)).1⟩

/-! ## Rule 6: the high total -/

theorem total_points_gt (impl : GoImpl) (r : Receipt) (s1 s2 : String) (t1 t2 : Float64)
    (h1 : ParseFloat s1 = some t1) (h2 : ParseFloat s2 = some t2)
    (hsuffix : HasSuffix s1 ".00" = HasSuffix s2 ".00")
    (hmod : Float64.eq (Float64.mod t1 (Float64.ofRat 1 4)) (Float64.ofRat 0 1)
      = Float64.eq (Float64.mod t2 (Float64.ofRat 1 4)) (Float64.ofRat 0 1))
    (hg1 : Float64.gt t1 (Float64.ofRat 10 1) = true)
    (hg2 : Float64.gt t2 (Float64.ofRat 10 1) = false) :
    CalculatePoints impl { r with Total := s1 }
      = wrap64 (CalculatePoints impl { r with Total := s2 } + 5) := by
  apply CalculatePoints_add impl { r with Total := s1 } { r with Total := s2 } t1 t2 5 h1 h2
  simp only [otherRules, hsuffix, hmod, hg1, hg2, if_true, Bool.false_eq_true, if_false]
  cases parseDateDay r.PurchaseDate <;> cases parseTimeHour r.PurchaseTime <;> simp only <;> ring

/-- C14, refuted as stated: the valid receipt `bigTotalReceipt` scores 2^63 - 1, the largest
`int`, with the total `10.00`; with the total `11.00` it scores -9223372036854775804, the sum
having wrapped around, and not 5 more. -/
theorem high_total_bonus_wraps :
    validateReceipt bigTotalReceipt = none
      ∧ ∀ impl, CalculatePoints impl { bigTotalReceipt with Total := "10.00" }
          = 9223372036854775807
        ∧ CalculatePoints impl { bigTotalReceipt with Total := "11.00" }
          = -9223372036854775804 :=
  ⟨by decide, fun impl => ⟨bigTotalReceipt_points impl, bigTotalReceipt_points_11 impl⟩⟩

/-- C14 (amended): Rule 6. For every receipt the score with total `10.00` equals the score
with total `9.00` (neither total is strictly greater than 10.00), and the score with total
`11.00` is 5 more than the score with total `10.00`, in wrapping `int` arithmetic, and
exactly 5 more as integers whenever the score with total `10.00` plus 5 is below 2^63. More
generally, of two totals that fare alike under Rules 2 and 3, the one that is strictly
greater than 10.00 earns 5 more, in wrapping `int` arithmetic, than the one that is not. -/
theorem rule6_high_total (impl : GoImpl) (r : Receipt) :
    CalculatePoints impl { r with Total := "10.00" }
        = CalculatePoints impl { r with Total := "9.00" }
      ∧ CalculatePoints impl { r with Total := "11.00" }
        = wrap64 (CalculatePoints impl { r with Total := "10.00" } + 5)
      ∧ (CalculatePoints impl { r with Total := "10.00" } + 5 < 2 ^ 63 →
          CalculatePoints impl { r with Total := "11.00" }
            = CalculatePoints impl { r with Total := "10.00" } + 5)
      ∧ (∀ s1 s2 t1 t2, ParseFloat s1 = some t1 → ParseFloat s2 = some t2 →
          HasSuffix s1 ".00" = HasSuffix s2 ".00" →
          Float64.eq (Float64.mod t1 (Float64.ofRat 1 4)) (Float64.ofRat 0 1)
            = Float64.eq (Float64.mod t2 (Float64.ofRat 1 4)) (Float64.ofRat 0 1) →
          Float64.gt t1 (Float64.ofRat 10 1) = true →
          Float64.gt t2 (Float64.ofRat 10 1) = false →
          CalculatePoints impl { r with Total := s1 }
            = wrap64 (CalculatePoints impl { r with Total := s2 } + 5)) := by
  have h := total_points_11_10 impl r
  exact ⟨total_points_10_9 impl r, h,
    fun hfit => CalculatePoints_add_exact impl _ _ 5 (by norm_num) h hfit,
    fun s1 s2 t1 t2 h1 h2 hs hm hg1 hg2 => total_points_gt impl r s1 s2 t1 t2 h1 h2 hs hm hg1 hg2⟩

/-! ## Rule 4: the pairs of items -/

set_option maxRecDepth 100000 in
theorem gatorade_bonus (impl : GoImpl) : rule5Bonus impl ⟨"Gatorade", "2.25"⟩ = 0 := by
  have hl : len (TrimSpace impl "Gatorade") = 8 := rfl
  simp only [rule5Bonus, hl]
  rfl

theorem sum_rule5Bonus_zero (impl : GoImpl) (items : List Item)
    (h : ∀ item ∈ items, rule5Bonus impl item = 0) :
    (items.map (rule5Bonus impl)).sum = 0 := by
  induction items with
  | nil => rfl
  | cons a l ih =>
    rw [List.map_cons, List.sum_cons, h a (List.mem_cons_self _ _),
      ih (fun item hi => h item (List.mem_cons_of_mem _ hi))]
    rfl

theorem items_points_pairs (impl : GoImpl) (r : Receipt) (t : Float64) (items : List Item)
    (ht : ParseFloat r.Total = some t) (h : ∀ item ∈ items, rule5Bonus impl item = 0) :
    CalculatePoints impl { r with Items := items }
      = wrap64 (CalculatePoints impl { r with Items := [] }
          + 5 * ((items.length / 2 : Nat) : Int)) := by
  apply CalculatePoints_add impl { r with Items := items } { r with Items := [] } t t _ ht ht
  simp only [otherRules, sum_rule5Bonus_zero impl items h, List.length_nil, List.map_nil,
    List.sum_nil, Nat.zero_div, Nat.cast_zero]
  ring

theorem bigReceipt_points_two (impl : GoImpl) :
    CalculatePoints impl
        { bigReceipt with
          Items := bigReceipt.Items ++ [⟨"Gatorade", "2.25"⟩, ⟨"Gatorade", "2.25"⟩] }
      = -9223372036854775804 := by
  rw [items_points_two impl bigReceipt _ ⟨"Gatorade", "2.25"⟩ ⟨"Gatorade", "2.25"⟩
    bigReceipt_total (gatorade_bonus impl) (gatorade_bonus impl), bigReceipt_points]
  decide

/-- C15, refuted as stated: the valid receipt `bigReceipt` scores 2^63 - 1, the largest `int`;
with two more items `Gatorade` at `2.25`, which earn no Rule 5 bonus, it scores
-9223372036854775804, the sum having wrapped around, and not 5 more. -/
theorem item_pair_bonus_wraps :
    validateReceipt bigReceipt = none
      ∧ ParseFloat bigReceipt.Total = some (Float64.fin false 4953959590107546 (-52))
      ∧ ∀ impl, rule5Bonus impl ⟨"Gatorade", "2.25"⟩ = 0
        ∧ CalculatePoints impl bigReceipt = 9223372036854775807
        ∧ CalculatePoints impl
            { bigReceipt with
              Items := bigReceipt.Items ++ [⟨"Gatorade", "2.25"⟩, ⟨"Gatorade", "2.25"⟩] }
          = -9223372036854775804 :=
  ⟨by decide, bigReceipt_total,
    fun impl => ⟨gatorade_bonus impl, bigReceipt_points impl, bigReceipt_points_two impl⟩⟩

/-- C15 (amended): Rule 4. For every receipt whose total parses, appending two items that
earn no Rule 5 bonus raises the score by 5, in wrapping `int` arithmetic, and by exactly 5 as
integers whenever the score plus 5 is below 2^63; appending one such item to a receipt with
an even number of items leaves the score unchanged; and a list of items none of which earns
a Rule 5 bonus scores `5 * floor(item_count / 2)` more, in wrapping `int` arithmetic, than no
items at all. -/
theorem rule4_item_pairs (impl : GoImpl) (r : Receipt) (t : Float64) (a b : Item)
    (ht : ParseFloat r.Total = some t) (ha : rule5Bonus impl a = 0)
    (hb : rule5Bonus impl b = 0) :
    CalculatePoints impl { r with Items := r.Items ++ [a, b] }
        = wrap64 (CalculatePoints impl r + 5)
      ∧ (CalculatePoints impl r + 5 < 2 ^ 63 →
          CalculatePoints impl { r with Items := r.Items ++ [a, b] }
            = CalculatePoints impl r + 5)
      ∧ (r.Items.length % 2 = 0 →
          CalculatePoints impl { r with Items := r.Items ++ [a] } = CalculatePoints impl r)
      ∧ (∀ items : List Item, (∀ item ∈ items, rule5Bonus impl item = 0) →
          CalculatePoints impl { r with Items := items }
            = wrap64 (CalculatePoints impl { r with Items := [] }
                + 5 * ((items.length / 2 : Nat) : Int))) := by
  have h := items_points_two impl r t a b ht ha hb
  exact ⟨h, fun hfit => CalculatePoints_add_exact impl _ _ 5 (by norm_num) h hfit,
    fun heven => items_points_one impl r t a ht ha heven,
    fun items hitems => items_points_pairs impl r t items ht hitems⟩

/-- C15 (amended), at the receipt of `TestProcessReceiptHandler_DescLengthMultipleOf3` (63
points, two items), to which two `Gatorade` are appended: exactly 5 more, 68 points. -/
theorem rule4_item_pairs_witness :
    ParseFloat targetReceipt.Total = some (Float64.fin false 6825768185233408 (-48))
      ∧ ∀ impl, rule5Bonus impl ⟨"Gatorade", "2.25"⟩ = 0
        ∧ CalculatePoints impl targetReceipt + 5 < 2 ^ 63
        ∧ CalculatePoints impl
            { targetReceipt with
              Items := targetReceipt.Items ++ [⟨"Gatorade", "2.25"⟩, ⟨"Gatorade", "2.25"⟩] }
          = 68 := by
  refine ⟨by decide, fun impl => ?_⟩
  have hfit : CalculatePoints impl targetReceipt + 5 < 2 ^ 63 := by
    rw [targetReceipt_points impl]
    decide
  refine ⟨gatorade_bonus impl, hfit, ?_⟩
  rw [(rule4_item_pairs impl targetReceipt (Float64.fin false 6825768185233408 (-48))
    ⟨"Gatorade", "2.25"⟩ ⟨"Gatorade", "2.25"⟩ (by decide) (gatorade_bonus impl)
    (gatorade_bonus impl)).2.1 hfit, targetReceipt_points impl]
  decide

/-! ## The order of the items -/

/-- C17: `CalculatePoints` does not depend on the order of the items: for every receipt and
every permutation of its list of items, the score of the permuted receipt equals the score
of the original. -/
theorem items_order_irrelevant (impl : GoImpl) (r : Receipt) (items : List Item)
    (h : r.Items.Perm items) :
    CalculatePoints impl { r with Items := items } = CalculatePoints impl r :=
  items_points_perm impl r items h

/-- C17, at the receipt of `TestProcessReceiptHandler_DescLengthMultipleOf3` with its two
items exchanged. -/
theorem items_order_irrelevant_witness :
    targetReceipt.Items.Perm
        [⟨"Klarbrunn 12-PK 12 FL OZ", "12.00"⟩, ⟨"Emils Cheese Pizza", "12.25"⟩]
      ∧ ∀ impl,
        CalculatePoints impl
            { targetReceipt with
              Items := [⟨"Klarbrunn 12-PK 12 FL OZ", "12.00"⟩, ⟨"Emils Cheese Pizza", "12.25"⟩] }
          = 63 :=
  ⟨List.Perm.swap _ _ _, fun impl =>
    (items_order_irrelevant impl targetReceipt _ (List.Perm.swap _ _ _)).trans
      (targetReceipt_points impl)⟩

/-! ## A lower bound of the score -/

theorem otherRules_ge_count (impl : GoImpl) (r : Receipt) (t : Float64) :
    ((r.Retailer.toList.countP (fun c => IsLetter impl c || IsDigit impl c) : Nat) : Int)
      ≤ otherRules impl r t := by
  have h2 : (0 : Int) ≤ ((r.Items.length / 2 : Nat) : Int) := Int.natCast_nonneg _
  unfold otherRules
  cases parseDateDay r.PurchaseDate <;> cases parseTimeHour r.PurchaseTime <;>
    simp only <;> split_ifs <;> omega

theorem CalculatePoints_ge_count_of_bounds (impl : GoImpl) (r : Receipt)
    (hret : len r.Retailer < 2 ^ 32) (hitems : r.Items.length < 2 ^ 32)
    (hprice : ∀ item ∈ r.Items, ∀ p, ParseFloat item.Price = some p →
      Float64.nonnegAtMost 32 p) :
    ((r.Retailer.toList.countP (fun c => IsLetter impl c || IsDigit impl c) : Nat) : Int)
      ≤ CalculatePoints impl r := by
  cases ht : ParseFloat r.Total with
  | none =>
    rw [CalculatePoints_eq_rule1 impl r (by omega) ht]
  | some t =>
    rw [CalculatePoints_eq_sum impl r t ht]
    have h0 := otherRules_ge_count impl r t
    obtain ⟨h1, h2⟩ := otherRules_bounds impl r t
    obtain ⟨h3, h4⟩ := sum_rule5Bonus_bounds impl r.Items hprice
    have h5 : (r.Items.length : Int) * 2 ^ 30 < 2 ^ 32 * 2 ^ 30 := by
      apply Int.mul_lt_mul_of_pos_right _ (by norm_num)
      exact_mod_cast hitems
    have h6 : (len r.Retailer : Int) < 2 ^ 32 := by exact_mod_cast hret
    have h7 : (r.Items.length : Int) < 2 ^ 32 := by exact_mod_cast hitems
    rw [wrap64_of_range _ (by omega) (by omega)]
    omega

set_option maxRecDepth 100000 in
theorem huge_item_bonus (impl : GoImpl) :
    rule5Bonus impl ⟨"abc", "4.6e19"⟩ = 9200000000000000000 := by
  have hl : len (TrimSpace impl "abc") = 3 := rfl
  simp only [rule5Bonus, hl]
  rfl

set_option maxRecDepth 100000 in
theorem huge_item_prices :
    ∀ item ∈ hugeReceipt.Items,
      ParseFloat item.Price = some (Float64.fin false 5615234375000000 13) := by
  decide

/-- C18, refuted as stated: both prices of `hugeReceipt` parse to the finite number 4.6e19,
each item earns 9200000000000000000 points, and the running total wraps around: the score,
-46744073709551607, is below the 4 letters of the retailer. -/
theorem nonneg_prices_below_count :
    (∀ item ∈ hugeReceipt.Items,
        ParseFloat item.Price = some (Float64.fin false 5615234375000000 13))
      ∧ ∀ impl,
        hugeReceipt.Retailer.toList.countP (fun c => IsLetter impl c || IsDigit impl c) = 4
          ∧ rule5Bonus impl ⟨"abc", "4.6e19"⟩ = 9200000000000000000
          ∧ CalculatePoints impl hugeReceipt = -46744073709551607 := by
  exact ⟨huge_item_prices, fun impl => ⟨rfl, huge_item_bonus impl, hugeReceipt_points impl⟩⟩

/-- C18 (amended): for every receipt whose retailer is shorter than 2^32 bytes, that has
fewer than 2^32 items, and in which every item price either fails to parse or parses to a
finite number between 0 and 2^32, `CalculatePoints` returns at least the number of
letter-or-digit characters of the retailer name, and hence at least 0. -/
theorem CalculatePoints_ge_count (impl : GoImpl) (r : Receipt)
    (hret : len r.Retailer < 2 ^ 32) (hitems : r.Items.length < 2 ^ 32)
    (hprice : ∀ item ∈ r.Items, ∀ p, ParseFloat item.Price = some p →
      Float64.nonnegAtMost 32 p) :
    ((r.Retailer.toList.countP (fun c => IsLetter impl c || IsDigit impl c) : Nat) : Int)
        ≤ CalculatePoints impl r
      ∧ 0 ≤ CalculatePoints impl r := by
  have h := CalculatePoints_ge_count_of_bounds impl r hret hitems hprice
  exact ⟨h, le_trans (Int.natCast_nonneg _) h⟩

theorem negZeroReceipt_prices :
    ParseFloat "-0.00" = some (Float64.fin true 0 (-1074))
      ∧ ∀ item ∈ negZeroReceipt.Items, ∀ p, ParseFloat item.Price = some p →
        Float64.nonnegAtMost 32 p := by
  have h1 : ParseFloat "-0.00" = some (Float64.fin true 0 (-1074)) := by decide
  refine ⟨h1, ?_⟩
  intro item hmem p hp
  simp only [negZeroReceipt, List.mem_singleton] at hmem
  subst hmem
  rw [show (Item.mk "abc" "-0.00").Price = "-0.00" from rfl, h1] at hp
  cases hp
  rfl

/-- C18 (amended), at the receipt of `TestProcessReceiptHandler_DescLengthMultipleOf3` (6
letters, 63 points) and at a receipt with an item priced `-0.00`, which parses to the
negative zero, a finite number between 0 and 2^32. -/
theorem CalculatePoints_ge_count_witness :
    len targetReceipt.Retailer < 2 ^ 32 ∧ targetReceipt.Items.length < 2 ^ 32
      ∧ len negZeroReceipt.Retailer < 2 ^ 32 ∧ negZeroReceipt.Items.length < 2 ^ 32
      ∧ ParseFloat "-0.00" = some (Float64.fin true 0 (-1074))
      ∧ ∀ impl,
        ((targetReceipt.Retailer.toList.countP
            (fun c => IsLetter impl c || IsDigit impl c) : Nat) : Int)
          ≤ CalculatePoints impl targetReceipt
        ∧ ((negZeroReceipt.Retailer.toList.countP
            (fun c => IsLetter impl c || IsDigit impl c) : Nat) : Int)
          ≤ CalculatePoints impl negZeroReceipt :=
  ⟨by decide, by decide, by decide, by decide, negZeroReceipt_prices.1, fun impl =>
    ⟨(CalculatePoints_ge_count impl targetReceipt (by decide) (by decide)
      targetReceipt_prices).1,
    (CalculatePoints_ge_count impl negZeroReceipt (by decide) (by decide)
      negZeroReceipt_prices.2).1⟩⟩

/-! ## Totals that end in ".00" -/

namespace Float64

theorem roundHalfEven_mul (N den : Nat) (hden : 0 < den) : roundHalfEven (den * N) den = N := by
  unfold roundHalfEven
  rw [Nat.mul_mod_right, Nat.mul_div_cancel_left _ hden]
  rw [if_neg]
  omega

/-- Rounding an integer, given as the fraction `(N * den) / den`, gives an integer: the
result `m * 2^q` has `0 ≤ q` or `2^(-q) ∣ m`. -/
theorem round_int (neg : Bool) (N den : Nat) (hden : 0 < den) (a : Bool) (m : Nat) (q : Int)
    (h : (round neg (N * den) den).1 = fin a m q) : 0 ≤ q ∨ 2 ^ (-q).toNat ∣ m := by
  unfold round at h
  by_cases h0 : N * den = 0
  · rw [if_pos h0] at h
    cases h
    exact Or.inr (dvd_zero _)
  · rw [if_neg h0] at h
    simp only at h
    generalize ulpExp (N * den) den = q0 at h
    by_cases hq : 0 ≤ q0
    · left
      split_ifs at h <;> cases h <;> omega
    · have hs : scale2 (N * den) den q0 = (N * den * 2 ^ (-q0).toNat, den) := by
        unfold scale2
        rw [if_neg hq]
      have e : N * den * 2 ^ (-q0).toNat = den * (N * 2 ^ (-q0).toNat) := by ring
      rw [hs] at h
      simp only [e, roundHalfEven_mul _ _ hden] at h
      by_cases hm : N * 2 ^ (-q0).toNat = 2 ^ 53
      · rw [if_pos hm] at h
        simp only at h
        have hk : (-q0).toNat ≤ 53 := by
          have hd : 2 ^ (-q0).toNat ∣ 2 ^ 53 := ⟨N, by rw [← hm]; ring⟩
          exact (Nat.pow_dvd_pow_iff_le_right (by norm_num)).1 hd
        split_ifs at h
        cases h
        by_cases h1 : 0 ≤ q0 + 1
        · exact Or.inl h1
        · right
          exact pow_dvd_pow 2 (by omega)
      · rw [if_neg hm] at h
        simp only at h
        split_ifs at h
        cases h
        exact Or.inr ⟨N, by ring⟩

theorem ofRat_one_quarter : ofRat 1 4 = fin false (2 ^ 52) (-54) := by decide

theorem ofRat_zero : ofRat 0 1 = fin false 0 (-1074) := by decide

/-- An integer is a multiple of 0.25: `math.Mod(x, 0.25) == 0`. -/
theorem mod_quarter_of_int (a : Bool) (m : Nat) (q : Int) (h : 0 ≤ q ∨ 2 ^ (-q).toNat ∣ m) :
    eq (mod (fin a m q) (ofRat 1 4)) (ofRat 0 1) = true := by
  rw [ofRat_one_quarter, ofRat_zero]
  have hR : (m * 2 ^ (q - min q (-54)).toNat) % (2 ^ 52 * 2 ^ (-54 - min q (-54)).toNat) = 0 := by
    apply Nat.mod_eq_zero_of_dvd
    rw [← pow_add]
    rcases h with h | ⟨c, hc⟩
    · exact Dvd.dvd.mul_left (pow_dvd_pow 2 (by omega)) m
    · by_cases hq : 0 ≤ q
      · exact Dvd.dvd.mul_left (pow_dvd_pow 2 (by omega)) m
      · rw [hc, mul_right_comm, ← pow_add]
        exact Dvd.dvd.mul_right (pow_dvd_pow 2 (by omega)) c
  have hm : mod (fin a m q) (fin false (2 ^ 52) (-54))
      = (roundDyadic a ((m * 2 ^ (q - min q (-54)).toNat)
          % (2 ^ 52 * 2 ^ (-54 - min q (-54)).toNat)) (min q (-54))).1 := by
    simp only [mod]
    rw [if_neg (by norm_num)]
  rw [hm, hR, roundDyadic_zero]
  cases a <;> rfl

end Float64

theorem cpl_mem (l p : List Char) (h : l.length ≤ commonPrefixLenIgnoreCase l p) :
    ∀ c ∈ l, ∃ x ∈ p,
      (if 'A'.toNat ≤ c.toNat ∧ c.toNat ≤ 'Z'.toNat then c.toNat + 32 else c.toNat)
        = x.toNat := by
  induction l generalizing p with
  | nil => intro c hc; cases hc
  | cons a l ih =>
    cases p with
    | nil =>
      simp only [commonPrefixLenIgnoreCase, List.length_cons] at h
      omega
    | cons x ps =>
      rw [commonPrefixLenIgnoreCase, List.length_cons] at h
      by_cases hx : (if 'A'.toNat ≤ a.toNat ∧ a.toNat ≤ 'Z'.toNat then a.toNat + 32
          else a.toNat) = x.toNat
      · rw [if_pos hx] at h
        intro c hc
        rcases List.mem_cons.1 hc with rfl | hc
        · exact ⟨x, List.mem_cons_self _ _, hx⟩
        · obtain ⟨y, hy, hcy⟩ := ih ps (by omega) c hc
          exact ⟨y, List.mem_cons_of_mem _ hy, hcy⟩
      · rw [if_neg hx] at h
        omega

theorem zero_not_mem_of_cpl (l p : List Char) (h : l.length ≤ commonPrefixLenIgnoreCase l p)
    (hp : ∀ x ∈ p, x.toNat ≠ 48) : '0' ∉ l := by
  intro hz
  obtain ⟨x, hx, he⟩ := cpl_mem l p h '0' hz
  exact hp x hx he.symm

theorem specialInf_no_zero (neg : Bool) (k : Nat) (t : List Char) (f : Float64) (n : Nat)
    (h : specialInf neg k t = some (f, n)) (hn : n = k + t.length) : '0' ∉ t := by
  unfold specialInf at h
  simp only at h
  apply zero_not_mem_of_cpl t "infinity".toList _ (by decide)
  split_ifs at h <;> simp only [Option.some.injEq, Prod.mk.injEq] at h <;> omega

theorem special_no_zero (l : List Char) (f : Float64) (n : Nat)
    (h : special l = some (f, n)) (hn : n = l.length) : '0' ∉ l := by
  cases l with
  | nil => intro hz; cases hz
  | cons c t =>
    simp only [special] at h
    simp only [List.length_cons] at hn
    split_ifs at h with h1 h2 h3 h4 h5
    · intro hz
      rcases List.mem_cons.1 hz with hc | hz
      · rw [h1] at hc; exact absurd hc (by decide)
      · exact specialInf_no_zero _ _ _ _ _ h (by omega) hz
    · intro hz
      rcases List.mem_cons.1 hz with hc | hz
      · rw [h2] at hc; exact absurd hc (by decide)
      · exact specialInf_no_zero _ _ _ _ _ h (by omega) hz
    · exact specialInf_no_zero _ _ _ _ _ h (by simp only [List.length_cons]; omega)
    · simp only [Option.some.injEq, Prod.mk.injEq] at h
      apply zero_not_mem_of_cpl (c :: t) "nan".toList _ (by decide)
      simp only [List.length_cons]
      omega

theorem readExpDigits_suffix (X : List Char) (e : Nat) (u : Bool) :
    (readExpDigits e u (X ++ ['.', '0', '0'])).2.2 ≠ [] := by
  induction X generalizing e u with
  | nil => simp [readExpDigits, isDecDigit]
  | cons c X ih =>
    rw [List.cons_append, readExpDigits]
    by_cases h1 : c = '_'
    · rw [if_pos h1]
      exact ih _ _
    · rw [if_neg h1]
      by_cases h2 : isDecDigit c = true
      · rw [if_pos h2]
        exact ih _ _
      · rw [if_neg h2]
        exact List.cons_ne_nil _ _

theorem readExp_suffix (X : List Char) (x : Int × Bool × List Char)
    (h : readExp (X ++ ['.', '0', '0']) = some x) : x.2.2 ≠ [] := by
  have key : ∀ Y : List Char, ∀ c : Char,
      (match Y ++ ['.', '0', '0'] with
        | [] => none
        | d :: t1 =>
          if isDecDigit d then
            some ((readExpDigits 0 false (d :: t1)).1 * (if c = '-' then -1 else 1),
                  (readExpDigits 0 false (d :: t1)).2.1, (readExpDigits 0 false (d :: t1)).2.2)
          else none) = some x → x.2.2 ≠ [] := by
    intro Y c hY
    cases Y with
    | nil => simp [isDecDigit] at hY
    | cons d Y =>
      rw [List.cons_append] at hY
      simp only at hY
      by_cases hd : isDecDigit d = true
      · rw [if_pos hd] at hY
        simp only [Option.some.injEq] at hY
        rw [← hY]
        exact readExpDigits_suffix (d :: Y) 0 false
      · rw [if_neg hd] at hY
        cases hY
  cases X with
  | nil => simp [readExp, isDecDigit] at h
  | cons c X =>
    rw [List.cons_append, readExp] at h
    by_cases hc : c = '+' ∨ c = '-'
    · rw [if_pos hc] at h
      exact key X c h
    · rw [if_neg hc] at h
      exact key (c :: X) c h

theorem readDigits_suffix (hex : Bool) (body : List Char) (st : ReadState) :
    (∃ X, (readDigits hex st (body ++ ['.', '0', '0'])).2 = X ++ ['.', '0', '0'])
      ∨ ((readDigits hex st (body ++ ['.', '0', '0'])).2 = []
        ∧ (hex = false → (st.nd = 0 → st.mantissa = 0) →
            (readDigits hex st (body ++ ['.', '0', '0'])).1.sawdot = true
              ∧ ((readDigits hex st (body ++ ['.', '0', '0'])).1.mantissa = 0
                ∨ ((∃ N, (readDigits hex st (body ++ ['.', '0', '0'])).1.mantissa = N * 100)
                  ∧ (readDigits hex st (body ++ ['.', '0', '0'])).1.dp
                      - ((readDigits hex st (body ++ ['.', '0', '0'])).1.nd : Int) = -2)))) := by
  induction body generalizing st with
  | nil =>
    by_cases hsd : st.sawdot = true
    · left
      exact ⟨[], by simp [readDigits, hsd]⟩
    · right
      by_cases hnd : st.nd = 0
      · refine ⟨by simp [readDigits, hsd, hnd, isDecDigit], ?_⟩
        intro _ hinv
        simp [readDigits, hsd, hnd, isDecDigit, hinv hnd]
      · refine ⟨by simp [readDigits, hsd, hnd, isDecDigit], ?_⟩
        intro hh _
        subst hh
        simp only [readDigits, List.nil_append]
        simp [hsd, hnd, isDecDigit]
        right
        exact ⟨⟨st.mantissa, by ring⟩, by omega⟩
  | cons c B ih =>
    rw [List.cons_append, readDigits]
    by_cases h1 : c = '_'
    · rw [if_pos h1]
      rcases ih { st with underscores := true } with h | ⟨ha, hb⟩
      · exact Or.inl h
      · exact Or.inr ⟨ha, fun hh hinv => hb hh hinv⟩
    rw [if_neg h1]
    by_cases h2 : c = '.'
    · rw [if_pos h2]
      by_cases h3 : st.sawdot = true
      · rw [if_pos h3]
        exact Or.inl ⟨c :: B, rfl⟩
      · rw [if_neg h3]
        rcases ih { st with sawdot := true, dp := st.nd } with h | ⟨ha, hb⟩
        · exact Or.inl h
        · exact Or.inr ⟨ha, fun hh hinv => hb hh hinv⟩
    rw [if_neg h2]
    by_cases h4 : isDecDigit c = true
    · rw [if_pos h4]
      by_cases h5 : c = '0' ∧ st.nd = 0
      · rw [if_pos h5]
        rcases ih { st with sawdigits := true, dp := st.dp - 1 } with h | ⟨ha, hb⟩
        · exact Or.inl h
        · exact Or.inr ⟨ha, fun hh hinv => hb hh hinv⟩
      · rw [if_neg h5]
        rcases ih { st with sawdigits := true, nd := st.nd + 1,
                            mantissa := st.mantissa * (if hex then 16 else 10)
                              + (c.toNat - '0'.toNat) } with h | ⟨ha, hb⟩
        · exact Or.inl h
        · exact Or.inr ⟨ha, fun hh _ => hb hh (fun h0 => absurd h0 (Nat.succ_ne_zero _))⟩
    rw [if_neg h4]
    by_cases h6 : (hex && isHexLetter c) = true
    · rw [if_pos h6]
      rcases ih { st with sawdigits := true, nd := st.nd + 1,
                          mantissa := st.mantissa * 16 + (lower c - 'a'.toNat + 10) }
        with h | ⟨ha, hb⟩
      · exact Or.inl h
      · exact Or.inr ⟨ha, fun hh _ => hb hh (fun h0 => absurd h0 (Nat.succ_ne_zero _))⟩
    · rw [if_neg h6]
      exact Or.inl ⟨c :: B, rfl⟩

theorem readFinish_some (s : List Char) (l : FloatLit) (u : Bool) (r : List Char)
    (lit : FloatLit) (rest : List Char) (h : readFinish s l u r = some (lit, rest)) :
    lit = l ∧ rest = r := by
  unfold readFinish at h
  split_ifs at h
  simp only [Option.some.injEq, Prod.mk.injEq] at h
  exact ⟨h.1.symm, h.2.symm⟩

theorem readFloat_suffix (l pre : List Char) (hl : l = pre ++ ['.', '0', '0'])
    (lit : FloatLit) (h : readFloat l = some (lit, [])) :
    lit.hex = false
      ∧ (lit.mantissa = 0 ∨ ((∃ N, lit.mantissa = N * 100) ∧ lit.exp = -2)) := by
  cases l with
  | nil => exact absurd hl.symm (by simp)
  | cons c t =>
    obtain ⟨body, hb⟩ :
        ∃ body, (if c = '+' ∨ c = '-' then t else c :: t) = body ++ ['.', '0', '0'] := by
      by_cases hc : c = '+' ∨ c = '-'
      · rw [if_pos hc]
        cases pre with
        | nil =>
          have hc0 : c = '.' := (List.cons.inj hl).1
          rw [hc0] at hc
          exact absurd hc (by decide)
        | cons p pre => exact ⟨pre, (List.cons.inj hl).2⟩
      · rw [if_neg hc]
        exact ⟨pre, hl⟩
    simp only [readFloat] at h
    rw [hb] at h
    cases hhex : hasHexPrefix (body ++ ['.', '0', '0']) with
    | false =>
      rw [hhex] at h
      simp only [Bool.false_eq_true, if_false] at h
      have hrd := readDigits_suffix false body ⟨0, 0, 0, false, false, false⟩
      generalize readDigits false ⟨0, 0, 0, false, false, false⟩ (body ++ ['.', '0', '0']) = r
        at h hrd
      obtain ⟨st, rem⟩ := r
      simp only at h hrd
      by_cases hsd : (!st.sawdigits) = true
      · rw [if_pos hsd] at h
        cases h
      rw [if_neg hsd] at h
      rcases hrd with ⟨X, hX⟩ | ⟨hnil, hgood⟩
      · subst hX
        cases X with
        | nil =>
          simp only [List.nil_append] at h
          rw [if_neg (by decide)] at h
          exact absurd (readFinish_some _ _ _ _ _ _ h).2 (by simp)
        | cons e X =>
          rw [List.cons_append] at h
          simp only at h
          by_cases he : lower e = 'e'.toNat
          · rw [if_pos he] at h
            cases hx : readExp (X ++ ['.', '0', '0']) with
            | none =>
              rw [hx] at h
              cases h
            | some x =>
              rw [hx] at h
              simp only at h
              exact absurd (readFinish_some _ _ _ _ _ _ h).2.symm (readExp_suffix X x hx)
          · rw [if_neg he] at h
            exact absurd (readFinish_some _ _ _ _ _ _ h).2 (by simp)
      · subst hnil
        simp only at h
        obtain ⟨hdot, hm⟩ := hgood (by simp) (by simp)
        rw [(readFinish_some _ _ _ _ _ _ h).1]
        refine ⟨rfl, ?_⟩
        rcases hm with hm | ⟨hN, hdp⟩
        · exact Or.inl hm
        · refine Or.inr ⟨hN, ?_⟩
          simp only [hdot, if_true]
          omega
    | true =>
      rw [hhex] at h
      simp only [if_true] at h
      obtain ⟨body2, hb2⟩ :
          ∃ body2, (body ++ ['.', '0', '0']).drop 2 = body2 ++ ['.', '0', '0'] := by
        cases body with
        | nil => exact absurd hhex (by decide)
        | cons a body =>
          cases body with
          | nil =>
            simp only [List.cons_append, List.nil_append, hasHexPrefix, Bool.and_eq_true,
              decide_eq_true_eq] at hhex
            exact absurd hhex.2 (by decide)
          | cons b body => exact ⟨body, rfl⟩
      rw [hb2] at h
      have hrd := readDigits_suffix true body2 ⟨0, 0, 0, false, false, false⟩
      generalize readDigits true ⟨0, 0, 0, false, false, false⟩ (body2 ++ ['.', '0', '0']) = r
        at h hrd
      obtain ⟨st, rem⟩ := r
      simp only at h hrd
      by_cases hsd : (!st.sawdigits) = true
      · rw [if_pos hsd] at h
        cases h
      rw [if_neg hsd] at h
      rcases hrd with ⟨X, hX⟩ | ⟨hnil, _⟩
      · subst hX
        cases X with
        | nil =>
          simp only [List.nil_append] at h
          rw [if_neg (by decide)] at h
          cases h
        | cons e X =>
          rw [List.cons_append] at h
          simp only at h
          by_cases he : lower e = 'p'.toNat
          · rw [if_pos he] at h
            cases hx : readExp (X ++ ['.', '0', '0']) with
            | none =>
              rw [hx] at h
              cases h
            | some x =>
              rw [hx] at h
              simp only at h
              exact absurd (readFinish_some _ _ _ _ _ _ h).2.symm (readExp_suffix X x hx)
          · rw [if_neg he] at h
            cases h
      · subst hnil
        simp only at h
        cases h

theorem Float64.round_fin (neg : Bool) (num den : Nat)
    (h : (Float64.round neg num den).2 = false) :
    ∃ m q, (Float64.round neg num den).1 = Float64.fin neg m q := by
  unfold Float64.round at h ⊢
  by_cases h0 : num = 0
  · rw [if_pos h0]
    exact ⟨_, _, rfl⟩
  · rw [if_neg h0] at h ⊢
    simp only at h ⊢
    split_ifs at h ⊢
    all_goals exact ⟨_, _, rfl⟩

theorem Float64.roundDecimal_zero (neg : Bool) (k : Int) :
    (Float64.roundDecimal neg 0 k).1 = Float64.fin neg 0 (-1074) := by
  unfold Float64.roundDecimal Float64.round
  split_ifs <;> simp_all

/-- A total that ends in `.00` and parses is an integer: the value `m * 2^q` has `0 ≤ q` or
`2^(-q) ∣ m`. -/
theorem ParseFloat_suffix_int (s : String) (t : Float64) (hs : HasSuffix s ".00" = true)
    (ht : ParseFloat s = some t) :
    ∃ a m q, t = Float64.fin a m q ∧ (0 ≤ q ∨ 2 ^ (-q).toNat ∣ m) := by
  obtain ⟨pre, hpre⟩ : ∃ pre, s.toList = pre ++ ['.', '0', '0'] := by
    obtain ⟨pre, hpre⟩ := List.isSuffixOf_iff_suffix.1 hs
    exact ⟨pre, hpre.symm⟩
  have hz : '0' ∈ s.toList := by
    rw [hpre]
    simp
  unfold ParseFloat at ht
  cases hsp : special s.toList with
  | some fn =>
    obtain ⟨f, n⟩ := fn
    rw [hsp] at ht
    simp only at ht
    by_cases hn : n = s.toList.length
    · exact absurd hz (special_no_zero _ _ _ hsp hn)
    · rw [if_neg hn] at ht
      cases ht
  | none =>
    rw [hsp] at ht
    simp only at ht
    cases hrf : readFloat s.toList with
    | none =>
      rw [hrf] at ht
      cases ht
    | some lr =>
      obtain ⟨lit, rest⟩ := lr
      rw [hrf] at ht
      simp only at ht
      by_cases hrest : rest = []
      · subst hrest
        obtain ⟨hhex, hlit⟩ := readFloat_suffix s.toList pre hpre lit hrf
        rw [if_neg (by simp), hhex] at ht
        simp only [Bool.false_eq_true, if_false] at ht
        by_cases hov : (Float64.roundDecimal lit.neg lit.mantissa lit.exp).2 = true
        · rw [if_pos hov] at ht
          cases ht
        · rw [if_neg hov] at ht
          simp only [Option.some.injEq] at ht
          rcases hlit with hm0 | ⟨⟨N, hN⟩, hexp⟩
          · rw [hm0, Float64.roundDecimal_zero] at ht
            exact ⟨lit.neg, 0, -1074, ht.symm, Or.inr (dvd_zero _)⟩
          · have hrd : Float64.roundDecimal lit.neg lit.mantissa lit.exp
                = Float64.round lit.neg (N * 100) 100 := by
              rw [hN, hexp]
              rfl
            rw [hrd] at ht hov
            obtain ⟨m, q, hmq⟩ := Float64.round_fin lit.neg (N * 100) 100
              (by simpa using hov)
            rw [hmq] at ht
            exact ⟨lit.neg, m, q, ht.symm,
              Float64.round_int lit.neg N 100 (by norm_num) lit.neg m q hmq⟩
      · rw [if_pos hrest] at ht
        cases ht

theorem ParseFloat_suffix_quarter (s : String) (t : Float64) (hs : HasSuffix s ".00" = true)
    (ht : ParseFloat s = some t) :
    Float64.eq (Float64.mod t (Float64.ofRat 1 4)) (Float64.ofRat 0 1) = true := by
  obtain ⟨a, m, q, rfl, h⟩ := ParseFloat_suffix_int s t hs ht
  exact Float64.mod_quarter_of_int a m q h

theorem round_dollar_points (impl : GoImpl) (r : Receipt) (t : Float64)
    (ht : ParseFloat r.Total = some t) (hs : HasSuffix r.Total ".00" = true) :
    CalculatePoints impl r
      = wrap64 (((r.Retailer.toList.countP (fun c => IsLetter impl c || IsDigit impl c) : Nat)
            : Int)
          + 75
          + ((r.Items.length / 2 : Nat) : Int) * 5
          + (r.Items.map (rule5Bonus impl)).sum
          + (if Float64.gt t (Float64.ofRat 10 1) then 5 else 0)
          + (match parseDateDay r.PurchaseDate with
             | some day => if day % 2 = 1 then 6 else 0
             | none => 0)
          + (match parseTimeHour r.PurchaseTime with
             | some hour => if hour = 14 then 10 else 0
             | none => 0)) := by
  rw [CalculatePoints_eq_sum impl r t ht]
  congr 1
  simp only [otherRules, hs, ParseFloat_suffix_quarter r.Total t hs ht, if_true]
  ring

theorem round_dollar_points_diff (impl : GoImpl) (r : Receipt) (t : Float64)
    (ht : ParseFloat r.Total = some t) (hs : HasSuffix r.Total ".00" = true)
    (s2 : String) (t2 : Float64) (h2 : ParseFloat s2 = some t2)
    (hs2 : HasSuffix s2 ".00" = false)
    (hm2 : Float64.eq (Float64.mod t2 (Float64.ofRat 1 4)) (Float64.ofRat 0 1) = false)
    (hg : Float64.gt t2 (Float64.ofRat 10 1) = Float64.gt t (Float64.ofRat 10 1)) :
    CalculatePoints impl r = wrap64 (CalculatePoints impl { r with Total := s2 } + 75) := by
  apply CalculatePoints_add impl r { r with Total := s2 } t t2 75 ht h2
  simp only [otherRules, hs, ParseFloat_suffix_quarter r.Total t hs ht, hs2, hm2, hg, if_true,
    Bool.false_eq_true, if_false]
  ring

/-- C19: whenever Rule 2 awards its 50 points, Rule 3 awards its 25. For every receipt whose
total parses and ends with the suffix `.00`, the parsed total is a multiple of 0.25
(`math.Mod(totalFloat, 0.25) == 0` holds), Rules 2 and 3 together contribute 75 to the sum
that `CalculatePoints` returns, and the score is 75 more, in `int` arithmetic, than that of
the same receipt with a total that earns neither rule and fares alike under Rule 6. -/
theorem round_dollar_is_quarter_multiple (impl : GoImpl) (r : Receipt) (t : Float64)
    (ht : ParseFloat r.Total = some t) (hs : HasSuffix r.Total ".00" = true) :
    Float64.eq (Float64.mod t (Float64.ofRat 1 4)) (Float64.ofRat 0 1) = true
      ∧ CalculatePoints impl r
        = wrap64 (((r.Retailer.toList.countP (fun c => IsLetter impl c || IsDigit impl c) : Nat)
              : Int)
            + 75
            + ((r.Items.length / 2 : Nat) : Int) * 5
            + (r.Items.map (rule5Bonus impl)).sum
            + (if Float64.gt t (Float64.ofRat 10 1) then 5 else 0)
            + (match parseDateDay r.PurchaseDate with
               | some day => if day % 2 = 1 then 6 else 0
               | none => 0)
            + (match parseTimeHour r.PurchaseTime with
               | some hour => if hour = 14 then 10 else 0
               | none => 0))
      ∧ (∀ s2 t2, ParseFloat s2 = some t2 → HasSuffix s2 ".00" = false →
          Float64.eq (Float64.mod t2 (Float64.ofRat 1 4)) (Float64.ofRat 0 1) = false →
          Float64.gt t2 (Float64.ofRat 10 1) = Float64.gt t (Float64.ofRat 10 1) →
          CalculatePoints impl r = wrap64 (CalculatePoints impl { r with Total := s2 } + 75)) :=
  ⟨ParseFloat_suffix_quarter r.Total t hs ht, round_dollar_points impl r t ht hs,
    fun s2 t2 h2 hs2 hm2 hg => round_dollar_points_diff impl r t ht hs s2 t2 h2 hs2 hm2 hg⟩

/-- C19, at the receipt of the specification's worked example, total `9.00`: its score is 75
more than with the total `9.10`. -/
theorem round_dollar_is_quarter_multiple_witness :
    ParseFloat mmReceipt.Total = some (Float64.fin false 5066549580791808 (-49))
      ∧ HasSuffix mmReceipt.Total ".00" = true
      ∧ ∀ impl,
        CalculatePoints impl mmReceipt
          = wrap64 (CalculatePoints impl { mmReceipt with Total := "9.10" } + 75) :=
  ⟨by decide, by decide, fun impl =>
    (round_dollar_is_quarter_multiple impl mmReceipt
      (Float64.fin false 5066549580791808 (-49)) (by decide) (by decide)).2.2
      "9.10" (Float64.fin false 5122844576133939 (-49)) (by decide) (by decide) (by decide)
      (by decide)⟩

end ReceiptProcessor
